import Mathlib

/-!
# `jay find`: the traversal-and-match engine

A shallow embedding of `src/find/find.go` (`Run`, `visit`, `inArray`) together
with the parts of the Go standard library the package calls
(`filepath.Walk`, `strings.Contains`, `strings.Count`, `strconv.Itoa`,
`fmt.Println`), and of `Exists` and `CopyFile` of `src/lib/common/common.go`.

Modelling conventions.

* Go strings are Lean `String`s; the unit of a string is a `Char`
  (valid UTF-8 text, where byte-wise and character-wise substring search agree).
* The package-level variables are the fields of `Globals`, passed explicitly.
  The `*string` / `*bool` flags are modelled by the values they point to.
* `filepath.Match`, `ioutil.ReadFile` and `filepath.Join` are standard library
  calls whose result depends on the pattern syntax or on the machine; they are
  the fields of `World`, and every theorem quantifies over them.
* What `os.Lstat` and the directory listing report under the root is a `Tree`;
  `walk` follows `path/filepath` as it stands today, where a directory is listed
  before the callback is called for it.
* Every function returns, next to its Go result, the list of `Event`s it
  performed (lines printed, files read, glob tests made), in order.
-/

namespace Find

/-! ## Data model -/

/-- Go `error` values that can flow through `visit`: the `filepath.SkipDir`
sentinel, `filepath.ErrBadPattern`, and a filesystem error with its message. -/
inductive GoError where
  | SkipDir
  | ErrBadPattern
  | PathError (msg : String)
  deriving DecidableEq

/-- The three `os.FileInfo` methods `visit` calls. -/
structure FileInfo where
  Name : String
  Size : Int
  IsDir : Bool
  deriving DecidableEq

/-- Package-level variables of `find` (lines 21-32), with the initial values of
`MaxSize` and `SkipFolders`. -/
structure Globals where
  flagFind : String
  flagFolder : String
  flagExt : String
  flagName : Bool
  flagRecursive : Bool
  MaxSize : Int := 1048576
  SkipFolders : List String := ["vendor", "node_modules", ".git"]

/-- Standard-library calls whose answer is not determined by the package.
`Match pattern name` is `filepath.Match`: `none` stands for the result
`(false, ErrBadPattern)`, the only error `filepath.Match` returns.
`ReadFile path` is `ioutil.ReadFile`: the contents or the error message.
`Join dir name` is `filepath.Join`. -/
structure World where
  Match : String → String → Option Bool
  ReadFile : String → Except String String
  Join : String → String → String

/-- One observable action of the program, in the order performed. -/
inductive Event where
  | Println (args : List String)
  | ReadFile (path : String)
  | Match (pattern name : String)
  deriving DecidableEq

/-- How a Go function call ends: it returns an `error` (`none` is `nil`), or it
panics (nil dereference). -/
inductive Outcome where
  | returned (err : Option GoError)
  | panicked
  deriving DecidableEq

/-- What the filesystem reports for one name: a non-directory with its size, a
directory with the outcome of listing it (an error message, or its entries in
the order `readDirNames` returns them), or a name whose `Lstat` fails. -/
inductive Tree where
  | entry (name : String) (size : Int) : Tree
  | dir (name : String) (size : Int) (readErr : Option String) (kids : List Tree) : Tree
  | lstatErr (name : String) (msg : String) : Tree

/-- The name of a node, as `Lstat(...).Name()` or the directory listing gives it. -/
def Tree.Name : Tree → String
  | .entry name _ => name
  | .dir name _ _ _ => name
  | .lstatErr name _ => name

/-- Whether `Lstat` succeeded and reports a directory. -/
def Tree.IsDir : Tree → Bool
  | .dir _ _ _ _ => true
  | _ => false

/-! ## Standard library: strings, strconv, fmt -/

/-- Leftmost position at which `sub` starts in `s`, if any (`strings.Index`). -/
def indexList (sub : List Char) : List Char → Option Nat
  | [] => if sub.isPrefixOf [] then some 0 else none
  | c :: t => if sub.isPrefixOf (c :: t) then some 0 else (indexList sub t).map (· + 1)

/-- Go `strings.Index`: the leftmost index of `substr` in `s`, or `-1`. -/
def Index (s substr : String) : Int :=
  match indexList substr.data s.data with
  | some i => i
  | none => -1

/-- Go `strings.Contains`: `Index(s, substr) >= 0`. -/
def Contains (s substr : String) : Bool :=
  decide (Index s substr ≥ 0)

/-- The loop of `strings.Count`: find the leftmost occurrence, count it, and
continue after its end. `fuel` bounds the number of iterations. -/
def countLoop (sub : List Char) : Nat → List Char → Nat → Nat
  | 0, _, n => n
  | fuel + 1, s, n =>
    match indexList sub s with
    | none => n
    | some i => countLoop sub fuel (s.drop (i + sub.length)) (n + 1)

/-- Go `strings.Count`: for an empty `substr`, one more than the number of
characters of `s`; otherwise the loop above (which needs at most
`len(s) + 1` iterations). -/
def Count (s substr : String) : Nat :=
  if substr.length = 0 then s.length + 1
  else countLoop substr.data (s.length + 1) s.data 0

/-- The specification's count, in its words: scan the contents from the left;
where the term starts at the current character count one occurrence and pass
over it, so that counted occurrences do not overlap. `skip` is the number of
characters still to pass over. -/
def scanFrom (term : List Char) : Nat → List Char → Nat
  | _, [] => 0
  | skip + 1, _ :: t => scanFrom term skip t
  | 0, c :: t =>
    if term.isPrefixOf (c :: t) then 1 + scanFrom term (term.length - 1) t
    else scanFrom term 0 t

/-- Number of non-overlapping occurrences of a non-empty `term` in `contents`,
scanning leftmost-first. -/
def occurrences (contents term : String) : Nat := scanFrom term.data 0 contents.data

/-- Whether `ps` lists, in increasing order, positions at or after `lo` at each
of which `term` occurs in `s`, no two of the occurrences overlapping. -/
def nonOverlappingFrom (term s : List Char) : Nat → List Nat → Bool
  | _, [] => true
  | lo, p :: ps =>
    decide (lo ≤ p) && term.isPrefixOf (s.drop p)
      && nonOverlappingFrom term s (p + term.length) ps

/-- Go `strconv.Itoa` on a non-negative count: its decimal rendering. -/
def Itoa (n : Nat) : String := Nat.repr n

/-- The line `fmt.Println(args...)` writes (without the final newline): the
operands separated by single spaces. -/
def Sprintln (args : List String) : String := " ".intercalate args

/-- The lines written to standard output by a trace, in order. -/
def stdout : List Event → List String
  | [] => []
  | .Println args :: tr => Sprintln args :: stdout tr
  | _ :: tr => stdout tr

/-- The paths handed to `ioutil.ReadFile` by a trace, in order. -/
def reads : List Event → List String
  | [] => []
  | .ReadFile p :: tr => p :: reads tr
  | _ :: tr => reads tr

/-! ## The package `find` -/

/-- Source `inArray` (lines 117-124). -/
def inArray (a : String) : List String → Bool
  | [] => false
  | b :: list => if b = a then true else inArray a list

/-- Source `visit` (lines 51-115): the `filepath.WalkFunc` of the search. -/
def visit (g : Globals) (w : World) (path : String) (fi : Option FileInfo)
    (err : Option GoError) : Outcome × List Event :=
  match err with
  | some e => (.returned (some e), [])
  | none =>
    match fi with
    | none => (.panicked, [])
    | some fi =>
      if fi.IsDir then
        if fi.Name = "." then (.returned none, [])
        else if inArray fi.Name g.SkipFolders then (.returned (some .SkipDir), [])
        else if g.flagRecursive then (.returned none, [])
        else (.returned (some .SkipDir), [])
      else
        match w.Match g.flagExt fi.Name with
        | none => (.returned (some .ErrBadPattern), [.Match g.flagExt fi.Name])
        | some false => (.returned none, [.Match g.flagExt fi.Name])
        | some true =>
          if fi.Size > g.MaxSize then
            (.returned none,
              [.Match g.flagExt fi.Name,
               .Println ["**ERROR: Skipping file too big", path]])
          else
            match w.ReadFile path with
            | .error _ =>
              (.returned none,
                [.Match g.flagExt fi.Name, .ReadFile path,
                 .Println ["**ERROR: Could not read from", path]])
            | .ok oldContents =>
              (.returned none,
                [.Match g.flagExt fi.Name, .ReadFile path]
                ++ (if g.flagName && Contains fi.Name g.flagFind
                    then [.Println ["Filename:", path]] else [])
                ++ (if Contains oldContents g.flagFind
                    then [.Println ["Contents:", path,
                            "(" ++ Itoa (Count oldContents g.flagFind) ++ ")"]]
                    else []))

/-- Whether the loop of `filepath.walk` returns after the entry `t` ended with
`o`: after a failed `Lstat`, on any error but `SkipDir`; otherwise on any error,
except `SkipDir` from a directory. A panic unwinds the walk. -/
def stops (t : Tree) (o : Outcome) : Bool :=
  match t with
  | .lstatErr _ _ => o != .returned none && o != .returned (some .SkipDir)
  | _ => o != .returned none && (!t.IsDir || o != .returned (some .SkipDir))

mutual
/-- Go `filepath.walk` with `visit` as the callback. A non-directory is handed
to `visit`. A directory is listed first, then handed to `visit` together with
the listing error; the walk goes on into its entries only when both are `nil`.
For a name whose `Lstat` failed the callers make the callback call themselves,
with a nil `FileInfo` and the error. -/
def walk (g : Globals) (w : World) (path : String) : Tree → Outcome × List Event
  | .entry name size => visit g w path (some ⟨name, size, false⟩) none
  | .lstatErr _ msg => visit g w path none (some (.PathError msg))
  | .dir name size readErr kids =>
    let r1 := visit g w path (some ⟨name, size, true⟩) (readErr.map .PathError)
    if readErr.isSome || r1.1 != .returned none then r1
    else
      let r := walkNames g w path kids
      (r.1, r1.2 ++ r.2)
/-- The loop of `filepath.walk` over the entries of the directory `path`: an
error other than `SkipDir` on a directory (or on a failed `Lstat`) stops the
walk; any error on a non-directory stops it. -/
def walkNames (g : Globals) (w : World) (path : String) : List Tree → Outcome × List Event
  | [] => (.returned none, [])
  | t :: rest =>
    let r := walk g w (w.Join path t.Name) t
    if stops t r.1 then r
    else
      let r' := walkNames g w path rest
      (r'.1, r.2 ++ r'.2)
end

/-- Go `filepath.Walk(root, visit)`: a `SkipDir` from the root is turned into
`nil`. (A failing `Lstat` of the root is the `lstatErr` node, for which `walk`
is the callback call `Walk` makes itself. `visit` never returns `SkipAll`.) -/
def Walk (g : Globals) (w : World) (root : String) (fs : Tree) : Outcome × List Event :=
  let r := walk g w root fs
  if r.1 = .returned (some .SkipDir) then (.returned none, r.2) else r

/-- The three banner lines `Run` prints before the walk. -/
def banner : List Event :=
  [.Println [], .Println ["Search Results"], .Println ["=============="]]

/-- The assignments at the start of `Run` (lines 36-40): the arguments are
stored in the package variables; `MaxSize` and `SkipFolders` keep their values. -/
def runGlobals (g0 : Globals) (text folder ext : String) (recursive filename : Bool) :
    Globals :=
  { g0 with flagFind := text, flagFolder := folder, flagExt := ext,
            flagRecursive := recursive, flagName := filename }

/-- Source `Run` (lines 35-47): store the arguments in the package variables,
print the banner, walk `folder`. `fs` is what the filesystem holds at `folder`. -/
def Run (g0 : Globals) (w : World) (text folder ext : String) (recursive filename : Bool)
    (fs : Tree) : Outcome × List Event :=
  let r := Walk (runGlobals g0 text folder ext recursive filename) w folder fs
  (r.1, banner ++ r.2)

/-! ## The package `common` -/

/-- What `os.Stat` answers, as far as `Exists` looks at it: no error, an error
for which `os.IsNotExist` holds, or another error. -/
inductive StatResult where
  | found
  | notExist
  | failed (msg : String)
  deriving DecidableEq

/-- The filesystem as `common` reads it: the answers of `os.Stat` and of
`ioutil.ReadFile` for each path. -/
structure Disk where
  Stat : String → StatResult
  ReadFile : String → Except String String

/-- One filesystem call of `common`, in the order performed. -/
inductive DiskEvent where
  | Stat (path : String)
  | ReadFile (path : String)
  | WriteFile (path data : String) (perm : Nat)
  deriving DecidableEq

/-- Source `Exists` (common.go lines 38-45): false only when `os.Stat` fails
with a not-exist error. -/
def Common.Exists (d : Disk) (f : String) : Bool :=
  match d.Stat f with
  | .notExist => false
  | _ => true

/-- Source `CopyFile` (common.go lines 49-60). The result is the returned error
(its message; `none` is `nil`), the filesystem afterwards, and the calls made.
`writeFile` is `ioutil.WriteFile`: its error and the filesystem it leaves. -/
def Common.CopyFile (writeFile : Disk → String → String → Nat → Option String × Disk)
    (d : Disk) (src dst : String) : Option String × Disk × List DiskEvent :=
  if Common.Exists d dst then
    (some ("File, " ++ dst ++ ", already exists."), d, [.Stat dst])
  else
    match d.ReadFile src with
    | .error msg => (some msg, d, [.Stat dst, .ReadFile src])
    | .ok data =>
      ((writeFile d dst data 0o644).1, (writeFile d dst data 0o644).2,
        [.Stat dst, .ReadFile src, .WriteFile dst data 0o644])

/-! ## Notions used in the statements -/

/-- A directory entry with everything beneath it removed; other entries unchanged. -/
def pruneKid : Tree → Tree
  | .dir name size readErr _ => .dir name size readErr []
  | t => t

/-- The directory decision of `visit` (lines 59-74): whether it answers `nil`,
not `SkipDir`, for a directory of this name. -/
def descends (g : Globals) (name : String) : Bool :=
  decide (name = ".") || (!inArray name g.SkipFolders && g.flagRecursive)

mutual
/-- The messages of all failing `Lstat` calls and directory listings in a tree. -/
def traversalErrors : Tree → List String
  | .entry _ _ => []
  | .lstatErr _ msg => [msg]
  | .dir _ _ readErr kids => readErr.toList ++ traversalErrorsList kids
/-- The same for a listing. -/
def traversalErrorsList : List Tree → List String
  | [] => []
  | t :: rest => traversalErrors t ++ traversalErrorsList rest
end

mutual
/-- Whether the tree holds a non-directory entry that lies below readable
directories only, each of which `visit` lets the walk descend into. -/
def reachesFile (g : Globals) : Tree → Bool
  | .entry _ _ => true
  | .lstatErr _ _ => false
  | .dir name _ readErr kids => readErr.isNone && descends g name && reachesFileList g kids
/-- The same for a listing. -/
def reachesFileList (g : Globals) : List Tree → Bool
  | [] => false
  | t :: rest => reachesFile g t || reachesFileList g rest
end

mutual
/-- Whether a failing `Lstat` or directory listing lies where the walk goes:
at the node itself, or below readable directories that `visit` lets the walk
descend into. -/
def meetsFailure (g : Globals) : Tree → Bool
  | .entry _ _ => false
  | .lstatErr _ _ => true
  | .dir name _ readErr kids =>
    readErr.isSome || (descends g name && meetsFailureList g kids)
/-- The same for a listing. -/
def meetsFailureList (g : Globals) : List Tree → Bool
  | [] => false
  | t :: rest => meetsFailure g t || meetsFailureList g rest
end

mutual
/-- The non-directory entries of a tree that lie neither in nor below a
directory whose name is in `skip`, each with the path the walk gives it, in
the order of the listings. -/
def inspectedFiles (w : World) (skip : List String) (path : String) :
    Tree → List (String × FileInfo)
  | .entry name size => [(path, ⟨name, size, false⟩)]
  | .lstatErr _ _ => []
  | .dir name _ _ kids =>
    if name ∈ skip then [] else inspectedFilesList w skip path kids
/-- The same for the listing of the directory `path`. -/
def inspectedFilesList (w : World) (skip : List String) (path : String) :
    List Tree → List (String × FileInfo)
  | [] => []
  | t :: rest =>
    inspectedFiles w skip (w.Join path t.Name) t ++ inspectedFilesList w skip path rest
end

/-- The events of calling `visit`, without a pre-existing error, on each of the
given files in turn. -/
def visitAll (g : Globals) (w : World) : List (String × FileInfo) → List Event
  | [] => []
  | f :: rest => (visit g w f.1 (some f.2) none).2 ++ visitAll g w rest

/-- The names handed to the glob matcher by a trace, in order. -/
def globTests : List Event → List String
  | [] => []
  | .Match _ name :: tr => name :: globTests tr
  | _ :: tr => globTests tr

/-! ## Concrete inputs used to exercise the theorems -/

/-- A machine whose glob matcher rejects every pattern as malformed. -/
def badPatternWorld : World :=
  { Match := fun _ _ => none
    ReadFile := fun _ => .ok "redred"
    Join := fun dir name => dir ++ "/" ++ name }

/-- The package variables before `Run` is called: empty flags, `MaxSize` and
`SkipFolders` at their initial values. -/
def initGlobals : Globals :=
  { flagFind := "", flagFolder := "", flagExt := "", flagName := false, flagRecursive := false }

/-- Package variables for a search of the term `red` in `*.go` files with
file-name matching on, `recursive` as given. -/
def redGlobals (recursive : Bool) : Globals :=
  { flagFind := "red", flagFolder := ".", flagExt := "*.go", flagName := true,
    flagRecursive := recursive }

/-- A machine on which every name passes the glob, every file reads as
`redred`, and joining paths puts a slash between them. -/
def redWorld : World :=
  { Match := fun _ _ => some true
    ReadFile := fun _ => .ok "redred"
    Join := fun dir name => dir ++ "/" ++ name }

/-- A machine on which every name passes the glob and every file reads as `contents`. -/
def worldReading (contents : String) : World :=
  { Match := fun _ _ => some true
    ReadFile := fun _ => .ok contents
    Join := fun dir name => dir ++ "/" ++ name }

/-- A filesystem holding the two files `a.txt` and `b.txt`. -/
def twoFileDisk : Disk :=
  { Stat := fun p => if p = "a.txt" ∨ p = "b.txt" then .found else .notExist
    ReadFile := fun p =>
      if p = "a.txt" then .ok "alpha" else if p = "b.txt" then .ok "beta"
      else .error "no such file" }

/-- A write that always succeeds and makes the path read as the data written. -/
def plainWrite (d : Disk) (path data : String) (_perm : Nat) : Option String × Disk :=
  (none,
    { Stat := fun p => if p = path then .found else d.Stat p
      ReadFile := fun p => if p = path then .ok data else d.ReadFile p })

/-- A machine on which the pattern is well-formed and matches no name. -/
def noMatchWorld : World :=
  { Match := fun _ _ => some false
    ReadFile := fun _ => .ok "redred"
    Join := fun dir name => dir ++ "/" ++ name }

/-- A machine on which every name passes the glob and no file can be read. -/
def unreadableWorld : World :=
  { Match := fun _ _ => some true
    ReadFile := fun _ => .error "permission denied"
    Join := fun dir name => dir ++ "/" ++ name }

/-! ## Basic facts about `visit` and the walk -/

theorem visit_err (g : Globals) (w : World) (path : String) (fi : Option FileInfo)
    (e : GoError) : visit g w path fi (some e) = (.returned (some e), []) := rfl

theorem visit_dir (g : Globals) (w : World) (path name : String) (size : Int) :
    visit g w path (some ⟨name, size, true⟩) none =
      (if name = "." ∨ (inArray name g.SkipFolders = false ∧ g.flagRecursive = true)
        then .returned none else .returned (some .SkipDir), []) := by
  by_cases h1 : name = "." <;> by_cases h2 : inArray name g.SkipFolders = true <;>
    by_cases h3 : g.flagRecursive = true <;> simp [visit, h1, h2, h3]

theorem walk_dir_readErr (g : Globals) (w : World) (path name : String) (size : Int)
    (msg : String) (kids : List Tree) :
    walk g w path (.dir name size (some msg) kids) = (.returned (some (.PathError msg)), []) := by
  simp [walk, visit]

theorem walk_dir_skipped (g : Globals) (w : World) (path name : String) (size : Int)
    (kids : List Tree)
    (h : ¬ (name = "." ∨ (inArray name g.SkipFolders = false ∧ g.flagRecursive = true))) :
    walk g w path (.dir name size none kids) = (.returned (some .SkipDir), []) := by
  simp [walk, visit_dir, h]

theorem walk_dir_entered (g : Globals) (w : World) (path name : String) (size : Int)
    (kids : List Tree)
    (h : name = "." ∨ (inArray name g.SkipFolders = false ∧ g.flagRecursive = true)) :
    walk g w path (.dir name size none kids) = walkNames g w path kids := by
  simp [walk, visit_dir, h]

theorem walkNames_cons_continue (g : Globals) (w : World) (path : String) (t : Tree)
    (rest : List Tree) (h : stops t (walk g w (w.Join path t.Name) t).1 = false) :
    walkNames g w path (t :: rest) =
      ((walkNames g w path rest).1,
        (walk g w (w.Join path t.Name) t).2 ++ (walkNames g w path rest).2) := by
  simp [walkNames, h]

theorem walkNames_cons_stop (g : Globals) (w : World) (path : String) (t : Tree)
    (rest : List Tree) (h : stops t (walk g w (w.Join path t.Name) t).1 = true) :
    walkNames g w path (t :: rest) = walk g w (w.Join path t.Name) t := by
  simp [walkNames, h]

theorem walkNames_cons (g : Globals) (w : World) (path : String) (t : Tree)
    (rest : List Tree) :
    walkNames g w path (t :: rest) =
      if stops t (walk g w (w.Join path t.Name) t).1 = true
      then walk g w (w.Join path t.Name) t
      else ((walkNames g w path rest).1,
        (walk g w (w.Join path t.Name) t).2 ++ (walkNames g w path rest).2) := by
  simp [walkNames]

theorem walkNames_nil (g : Globals) (w : World) (path : String) :
    walkNames g w path [] = (.returned none, []) := by
  simp [walkNames]

theorem Walk_snd (g : Globals) (w : World) (root : String) (t : Tree) :
    (Walk g w root t).2 = (walk g w root t).2 := by
  unfold Walk
  by_cases h : (walk g w root t).1 = .returned (some .SkipDir) <;> simp [h]

/-- On a non-directory `visit` returns `nil` or `ErrBadPattern`. -/
theorem visit_file_outcome (g : Globals) (w : World) (path name : String) (size : Int) :
    (visit g w path (some ⟨name, size, false⟩) none).1 = .returned none
    ∨ ((visit g w path (some ⟨name, size, false⟩) none).1 = .returned (some .ErrBadPattern)
        ∧ w.Match g.flagExt name = none) := by
  unfold visit
  simp only [Bool.false_eq_true, if_false]
  split
  · right; simp_all
  · left; rfl
  · split
    · left; rfl
    · split <;> (left; rfl)

/-- The first event of `visit` on a non-directory is the glob test of its name. -/
theorem visit_file_match_event (g : Globals) (w : World) (path name : String) (size : Int) :
    Event.Match g.flagExt name ∈ (visit g w path (some ⟨name, size, false⟩) none).2 := by
  unfold visit
  simp only [Bool.false_eq_true, if_false]
  split
  · simp
  · simp
  · split
    · simp
    · split <;> simp

/-- The loop over a listing never ends with `SkipDir`. -/
theorem walkNames_ne_skipDir (g : Globals) (w : World) (path : String) (ks : List Tree) :
    (walkNames g w path ks).1 ≠ .returned (some .SkipDir) := by
  induction ks with
  | nil => simp [walkNames_nil]
  | cons t rest ih =>
    rw [walkNames_cons]
    by_cases hs : stops t (walk g w (w.Join path t.Name) t).1 = true
    · rw [if_pos hs]
      intro hskip
      rw [hskip] at hs
      cases t with
      | entry name size =>
        rcases visit_file_outcome g w (w.Join path name) name size with h | ⟨h, _⟩ <;>
          simp [walk, Tree.Name] at hskip <;> rw [h] at hskip <;> simp at hskip
      | dir name size readErr kids => simp [stops, Tree.IsDir] at hs
      | lstatErr name msg => simp [stops] at hs
    · rw [if_neg hs]
      exact ih

/-- Walking a listing in two parts: the second part is walked only when the
first ended with `nil`. -/
theorem walkNames_append (g : Globals) (w : World) (path : String) (pre post : List Tree) :
    walkNames g w path (pre ++ post) =
      if (walkNames g w path pre).1 = .returned none
      then ((walkNames g w path post).1,
        (walkNames g w path pre).2 ++ (walkNames g w path post).2)
      else walkNames g w path pre := by
  induction pre with
  | nil => simp [walkNames_nil]
  | cons t rest ih =>
    rw [List.cons_append, walkNames_cons, walkNames_cons]
    by_cases hs : stops t (walk g w (w.Join path t.Name) t).1 = true
    · have hne : (walk g w (w.Join path t.Name) t).1 ≠ .returned none := by
        intro h
        rw [h] at hs
        cases t <;> simp [stops] at hs
      simp [hs, hne]
    · simp only [hs, if_false, Bool.false_eq_true]
      rw [ih]
      by_cases hp : (walkNames g w path rest).1 = .returned none
      · simp [hp]
      · simp [hp]

/-- The trace of `visit` on a file that passes the glob and is too big. -/
theorem visit_too_big (g : Globals) (w : World) (path name : String) (size : Int)
    (hglob : w.Match g.flagExt name = some true) (hsize : size > g.MaxSize) :
    visit g w path (some ⟨name, size, false⟩) none =
      (.returned none,
        [.Match g.flagExt name, .Println ["**ERROR: Skipping file too big", path]]) := by
  simp [visit, hglob, hsize]

/-- The trace of `visit` on a file that passes the glob and the size check but
cannot be read. -/
theorem visit_unreadable (g : Globals) (w : World) (path name : String) (size : Int)
    (msg : String) (hglob : w.Match g.flagExt name = some true) (hsize : size ≤ g.MaxSize)
    (hread : w.ReadFile path = .error msg) :
    visit g w path (some ⟨name, size, false⟩) none =
      (.returned none,
        [.Match g.flagExt name, .ReadFile path,
         .Println ["**ERROR: Could not read from", path]]) := by
  have hs : ¬ size > g.MaxSize := not_lt.mpr hsize
  simp [visit, hglob, hs, hread]

/-- The trace of `visit` on an inspected file: glob test, read, then the
file-name record and the contents record, each under its own test. -/
theorem visit_inspected (g : Globals) (w : World) (path name : String) (size : Int)
    (contents : String) (hglob : w.Match g.flagExt name = some true)
    (hsize : size ≤ g.MaxSize) (hread : w.ReadFile path = .ok contents) :
    visit g w path (some ⟨name, size, false⟩) none =
      (.returned none,
        [.Match g.flagExt name, .ReadFile path]
        ++ (if (g.flagName && Contains name g.flagFind) = true
            then [.Println ["Filename:", path]] else [])
        ++ (if Contains contents g.flagFind = true
            then [.Println ["Contents:", path,
                    "(" ++ Itoa (Count contents g.flagFind) ++ ")"]]
            else [])) := by
  have hs : ¬ size > g.MaxSize := not_lt.mpr hsize
  simp [visit, hglob, hs, hread]

/-- Every `Println` of `visit` is one of its four calls, made under the
conditions the source puts on it. -/
theorem visit_println (g : Globals) (w : World) (path : String) (fi : Option FileInfo)
    (err : Option GoError) (args : List String)
    (h : Event.Println args ∈ (visit g w path fi err).2) :
    ∃ name size, fi = some ⟨name, size, false⟩ ∧ err = none
      ∧ w.Match g.flagExt name = some true
      ∧ ((args = ["**ERROR: Skipping file too big", path] ∧ size > g.MaxSize)
        ∨ (args = ["**ERROR: Could not read from", path] ∧ size ≤ g.MaxSize
            ∧ ∃ msg, w.ReadFile path = .error msg)
        ∨ (args = ["Filename:", path] ∧ size ≤ g.MaxSize ∧ g.flagName = true
            ∧ Contains name g.flagFind = true ∧ ∃ c, w.ReadFile path = .ok c)
        ∨ (size ≤ g.MaxSize ∧ ∃ c, w.ReadFile path = .ok c ∧ Contains c g.flagFind = true
            ∧ args = ["Contents:", path, "(" ++ Itoa (Count c g.flagFind) ++ ")"])) := by
  cases err with
  | some e => simp [visit] at h
  | none =>
    cases fi with
    | none => simp [visit] at h
    | some info =>
      obtain ⟨name, size, isDir⟩ := info
      cases isDir with
      | true =>
        rw [visit_dir] at h
        simp at h
      | false =>
        refine ⟨name, size, rfl, rfl, ?_⟩
        cases hM : w.Match g.flagExt name with
        | none => simp [visit, hM] at h
        | some m =>
          cases m with
          | false => simp [visit, hM] at h
          | true =>
            refine ⟨rfl, ?_⟩
            by_cases hs : size > g.MaxSize
            · rw [visit_too_big g w path name size hM hs] at h
              simp at h
              exact Or.inl ⟨h, hs⟩
            · have hle : size ≤ g.MaxSize := not_lt.mp hs
              cases hR : w.ReadFile path with
              | error msg =>
                rw [visit_unreadable g w path name size msg hM hle hR] at h
                simp at h
                exact Or.inr (Or.inl ⟨h, hle, msg, rfl⟩)
              | ok c =>
                rw [visit_inspected g w path name size c hM hle hR] at h
                simp only [List.mem_append, List.mem_cons, List.mem_singleton,
                  List.not_mem_nil, or_false, false_or, reduceCtorEq] at h
                rcases h with h | h
                · split at h
                  · rename_i hc
                    simp only [Bool.and_eq_true] at hc
                    simp only [List.mem_singleton, Event.Println.injEq] at h
                    exact Or.inr (Or.inr (Or.inl ⟨h, hle, hc.1, hc.2, c, rfl⟩))
                  · simp at h
                · split at h
                  · rename_i hc
                    simp only [List.mem_singleton, Event.Println.injEq] at h
                    exact Or.inr (Or.inr (Or.inr ⟨hle, c, rfl, hc, h⟩))
                  · simp at h

/-! ## C1: excluded directories -/

/-- C1, refuted as stated: for a `vendor` directory whose listing cannot be
read, `visit` is called with the listing error and returns that error, not
`SkipDir`; the walk of the directory ends with the error, and the run stops
with it before the following entry `z.go` is looked at. -/
theorem C1_counterexample_unreadable_excluded :
    visit (redGlobals true) redWorld "./vendor" (some ⟨"vendor", 0, true⟩)
        (some (.PathError "permission denied"))
      = (.returned (some (.PathError "permission denied")), [])
    ∧ (visit (redGlobals true) redWorld "./vendor" (some ⟨"vendor", 0, true⟩)
        (some (.PathError "permission denied"))).1 ≠ .returned (some .SkipDir)
    ∧ walk (redGlobals true) redWorld "./vendor"
        (.dir "vendor" 0 (some "permission denied") [.entry "c.go" 6])
      = (.returned (some (.PathError "permission denied")), [])
    ∧ Run initGlobals redWorld "red" "." "*.go" true true
        (.dir "." 0 none
          [.dir "vendor" 0 (some "permission denied") [.entry "c.go" 6], .entry "z.go" 6])
      = (.returned (some (.PathError "permission denied")), banner) := by
  decide

/-- C1, amended. A directory whose name is in the exclusion set (and is not
`.`) is never descended into, whatever the recursion flag: walking it performs
no event at all (no glob test, no read, no output line), whatever lies beneath
it and whether or not its listing can be read. When the listing can be read,
`visit` is called without error and answers `SkipDir`, the walk of the
directory ends with `SkipDir`, inside a listing the walk goes on with the
following entries as if the directory were absent, and as a root it makes
`Walk` return `nil`. When the listing cannot be read, `visit` is called with
the listing error and returns it, and the walk of the directory, the loop over
the listing that holds it, and `Walk` on it as a root all end with that error. -/
theorem C1_excluded_directory_never_entered (g : Globals) (w : World) (path name : String)
    (size : Int) (kids : List Tree)
    (hdot : name ≠ ".") (hex : inArray name g.SkipFolders = true) :
    (∀ readErr, (walk g w path (.dir name size readErr kids)).2 = [])
    ∧ visit g w path (some ⟨name, size, true⟩) none = (.returned (some .SkipDir), [])
    ∧ walk g w path (.dir name size none kids) = (.returned (some .SkipDir), [])
    ∧ (∀ parent rest,
        walkNames g w parent (.dir name size none kids :: rest) = walkNames g w parent rest)
    ∧ Walk g w path (.dir name size none kids) = (.returned none, [])
    ∧ (∀ msg,
        visit g w path (some ⟨name, size, true⟩) (some (.PathError msg))
          = (.returned (some (.PathError msg)), [])
        ∧ walk g w path (.dir name size (some msg) kids)
          = (.returned (some (.PathError msg)), [])
        ∧ (∀ parent rest,
            walkNames g w parent (.dir name size (some msg) kids :: rest)
              = (.returned (some (.PathError msg)), []))
        ∧ Walk g w path (.dir name size (some msg) kids)
          = (.returned (some (.PathError msg)), [])) := by
  have hskip : ¬ (name = "." ∨ (inArray name g.SkipFolders = false ∧ g.flagRecursive = true)) := by
    simp [hdot, hex]
  refine ⟨?_, by simp [visit_dir, hskip], walk_dir_skipped g w path name size kids hskip,
    ?_, ?_, ?_⟩
  · intro readErr
    cases readErr with
    | none => rw [walk_dir_skipped g w path name size kids hskip]
    | some msg => rw [walk_dir_readErr]
  · intro parent rest
    rw [walkNames_cons_continue]
    · rw [walk_dir_skipped g w _ name size kids hskip]; simp
    · rw [walk_dir_skipped g w _ name size kids hskip]; simp [stops, Tree.IsDir]
  · simp [Walk, walk_dir_skipped g w path name size kids hskip]
  · intro msg
    refine ⟨rfl, walk_dir_readErr g w path name size msg kids, ?_, ?_⟩
    · intro parent rest
      rw [walkNames_cons_stop]
      · rw [walk_dir_readErr]
      · rw [walk_dir_readErr]; simp [stops, Tree.IsDir]
    · simp [Walk, walk_dir_readErr]

/-- C1 amended, at a concrete input: a `vendor` directory holding a matching
file, with recursion on, once with a readable and once with an unreadable listing. -/
theorem C1_excluded_directory_never_entered_witness :
    "vendor" ≠ "."
    ∧ inArray "vendor" (redGlobals true).SkipFolders = true
    ∧ (∀ readErr, (walk (redGlobals true) redWorld "./vendor"
          (.dir "vendor" 0 readErr [.entry "c.go" 6])).2 = [])
    ∧ visit (redGlobals true) redWorld "./vendor" (some ⟨"vendor", 0, true⟩) none
        = (.returned (some .SkipDir), [])
    ∧ walkNames (redGlobals true) redWorld "."
          [.dir "vendor" 0 none [.entry "c.go" 6], .entry "z.go" 6]
        = walkNames (redGlobals true) redWorld "." [.entry "z.go" 6]
    ∧ walkNames (redGlobals true) redWorld "."
          [.dir "vendor" 0 (some "permission denied") [.entry "c.go" 6], .entry "z.go" 6]
        = (.returned (some (.PathError "permission denied")), []) :=
  ⟨by decide, by decide,
    (C1_excluded_directory_never_entered (redGlobals true) redWorld "./vendor" "vendor" 0
      [.entry "c.go" 6] (by decide) (by decide)).1,
    (C1_excluded_directory_never_entered (redGlobals true) redWorld "./vendor" "vendor" 0
      [.entry "c.go" 6] (by decide) (by decide)).2.1,
    (C1_excluded_directory_never_entered (redGlobals true) redWorld "./vendor" "vendor" 0
      [.entry "c.go" 6] (by decide) (by decide)).2.2.2.1 "." [.entry "z.go" 6],
    ((C1_excluded_directory_never_entered (redGlobals true) redWorld "./vendor" "vendor" 0
      [.entry "c.go" 6] (by decide) (by decide)).2.2.2.2.2 "permission denied").2.2.1
        "." [.entry "z.go" 6]⟩

/-! ## C2: the root directory -/

/-- C2, refuted as stated: a root directory named `proj` searched without
recursion is answered with `SkipDir`; the run ends with `nil`, prints only the
banner, and the file `a.go` directly in the root is never glob-tested or read. -/
theorem C2_counterexample_named_root :
    visit (redGlobals false) redWorld "proj" (some ⟨"proj", 0, true⟩) none
        = (.returned (some .SkipDir), [])
    ∧ Run initGlobals redWorld "red" "proj" "*.go" false true
          (.dir "proj" 0 none [.entry "a.go" 6]) = (.returned none, banner)
    ∧ Event.Match "*.go" "a.go" ∉
        (Run initGlobals redWorld "red" "proj" "*.go" false true
          (.dir "proj" 0 none [.entry "a.go" 6])).2 := by
  decide

/-- C2, amended. For a root directory whose listing can be read: a root named
`.` is entered on both values of the recursion flag (`visit` answers `nil` and
`Walk` is the walk of its listing); for a root of any name `visit` answers
`nil` exactly when the name is `.`, or the recursion flag is set and the name
is not in the exclusion set, and `SkipDir` otherwise; in the first case `Walk`
is the walk of the listing, in the second it returns `nil` and nothing at all
is inspected. When the root is entered, every non-directory entry directly in
it that the walk reaches (the entries before it ended with `nil`) is handed to
`visit`, whose first step is the glob test of its name. For a root directory
whose listing cannot be read, `visit` is called with the listing error and
returns it, `Walk` returns that error, and nothing is inspected. -/
theorem C2_root_entered_iff (g : Globals) (w : World) (root name : String) (size : Int)
    (kids : List Tree) :
    (visit g w root (some ⟨".", size, true⟩) none = (.returned none, [])
      ∧ Walk g w root (.dir "." size none kids) = walkNames g w root kids)
    ∧ visit g w root (some ⟨name, size, true⟩) none =
        (if name = "." ∨ (inArray name g.SkipFolders = false ∧ g.flagRecursive = true)
          then .returned none else .returned (some .SkipDir), [])
    ∧ Walk g w root (.dir name size none kids) =
        (if name = "." ∨ (inArray name g.SkipFolders = false ∧ g.flagRecursive = true)
          then walkNames g w root kids else (.returned none, []))
    ∧ ((name = "." ∨ (inArray name g.SkipFolders = false ∧ g.flagRecursive = true)) →
        ∀ pre fname fsize post, kids = pre ++ Tree.entry fname fsize :: post →
          (walkNames g w root pre).1 = .returned none →
          (∃ rest, (Walk g w root (.dir name size none kids)).2 =
              (walkNames g w root pre).2
                ++ (visit g w (w.Join root fname) (some ⟨fname, fsize, false⟩) none).2
                ++ rest)
          ∧ Event.Match g.flagExt fname ∈ (Walk g w root (.dir name size none kids)).2)
    ∧ (∀ msg,
        visit g w root (some ⟨name, size, true⟩) (some (.PathError msg))
          = (.returned (some (.PathError msg)), [])
        ∧ Walk g w root (.dir name size (some msg) kids)
          = (.returned (some (.PathError msg)), [])) := by
  have hWalk : ∀ n : String, Walk g w root (.dir n size none kids) =
      (if n = "." ∨ (inArray n g.SkipFolders = false ∧ g.flagRecursive = true)
        then walkNames g w root kids else (.returned none, [])) := by
    intro n
    by_cases h : n = "." ∨ (inArray n g.SkipFolders = false ∧ g.flagRecursive = true)
    · rw [if_pos h]
      unfold Walk
      rw [walk_dir_entered g w root n size kids h]
      simp [walkNames_ne_skipDir]
    · rw [if_neg h]
      unfold Walk
      rw [walk_dir_skipped g w root n size kids h]
      simp
  refine ⟨⟨by simp [visit_dir], by rw [hWalk "."]; simp⟩, visit_dir g w root name size,
    hWalk name, ?_, ?_⟩
  · intro h pre fname fsize post hk hpre
    have hev : (Walk g w root (.dir name size none kids)).2 =
        (walkNames g w root pre).2
          ++ ((visit g w (w.Join root fname) (some ⟨fname, fsize, false⟩) none).2
          ++ (if stops (.entry fname fsize)
                (visit g w (w.Join root fname) (some ⟨fname, fsize, false⟩) none).1 = true
              then [] else (walkNames g w root post).2)) := by
      rw [Walk_snd, walk_dir_entered g w root name size kids h, hk, walkNames_append,
        if_pos hpre, walkNames_cons]
      simp only [walk, Tree.Name]
      split <;> simp
    refine ⟨⟨_, by rw [hev, List.append_assoc]⟩, ?_⟩
    rw [hev]
    exact List.mem_append_right _ (List.mem_append_left _ (visit_file_match_event g w _ fname fsize))
  · intro msg
    exact ⟨rfl, by simp [Walk, walk_dir_readErr]⟩

/-- C2 amended, at a concrete input: root `.` with one file, recursion off. -/
theorem C2_root_entered_iff_witness :
    ("." = "." ∨ (inArray "." (redGlobals false).SkipFolders = false
        ∧ (redGlobals false).flagRecursive = true))
    ∧ Event.Match "*.go" "a.go" ∈
        (Walk (redGlobals false) redWorld "." (.dir "." 0 none [.entry "a.go" 6])).2 :=
  ⟨Or.inl rfl,
    ((C2_root_entered_iff (redGlobals false) redWorld "." "." 0 [.entry "a.go" 6]).2.2.2.1
      (Or.inl rfl) [] "a.go" 6 [] rfl (by decide)).2⟩

/-! ## C3: no recursion -/

theorem walk_subdir_nonrecursive (g : Globals) (w : World) (path name : String) (size : Int)
    (readErr : Option String) (kids : List Tree)
    (hrec : g.flagRecursive = false) (hdot : name ≠ ".") :
    (walk g w path (.dir name size readErr kids)).2 = []
    ∧ walk g w path (.dir name size readErr kids) = walk g w path (.dir name size readErr []) := by
  have hskip : ¬ (name = "." ∨ (inArray name g.SkipFolders = false ∧ g.flagRecursive = true)) := by
    simp [hdot, hrec]
  cases readErr with
  | none => simp [walk_dir_skipped g w path name size _ hskip]
  | some msg => simp [walk_dir_readErr]

theorem walk_pruneKid (g : Globals) (w : World) (path : String) (t : Tree)
    (hrec : g.flagRecursive = false) (hdot : t.Name ≠ ".") :
    walk g w path (pruneKid t) = walk g w path t := by
  cases t with
  | entry name size => rfl
  | lstatErr name msg => rfl
  | dir name size readErr kids =>
    exact ((walk_subdir_nonrecursive g w path name size readErr kids hrec hdot).2).symm

theorem walkNames_prune (g : Globals) (w : World) (path : String) (ks : List Tree)
    (hrec : g.flagRecursive = false) (hnames : ∀ k ∈ ks, k.Name ≠ ".") :
    walkNames g w path (ks.map pruneKid) = walkNames g w path ks := by
  induction ks with
  | nil => rfl
  | cons t rest ih =>
    have hn : (pruneKid t).Name = t.Name := by cases t <;> rfl
    have hst : ∀ o, stops (pruneKid t) o = stops t o := by intro o; cases t <;> rfl
    rw [List.map_cons, walkNames_cons, walkNames_cons, hn,
      walk_pruneKid g w _ t hrec (hnames t (List.mem_cons_self _ _)), hst,
      ih (fun k hk => hnames k (List.mem_cons_of_mem _ hk))]

theorem walkNames_events_nonrecursive (g : Globals) (w : World) (path : String)
    (ks : List Tree) (hrec : g.flagRecursive = false) (hnames : ∀ k ∈ ks, k.Name ≠ ".") :
    ∀ e ∈ (walkNames g w path ks).2, ∃ n s, Tree.entry n s ∈ ks
      ∧ e ∈ (visit g w (w.Join path n) (some ⟨n, s, false⟩) none).2 := by
  induction ks with
  | nil => simp [walkNames_nil]
  | cons t rest ih =>
    have ih' := ih (fun k hk => hnames k (List.mem_cons_of_mem _ hk))
    have hhead : ∀ e ∈ (walk g w (w.Join path t.Name) t).2, ∃ n s, Tree.entry n s ∈ t :: rest
        ∧ e ∈ (visit g w (w.Join path n) (some ⟨n, s, false⟩) none).2 := by
      intro e he
      cases t with
      | entry name size => exact ⟨name, size, List.mem_cons_self _ _, he⟩
      | lstatErr name msg => simp [walk, visit] at he
      | dir name size readErr kids =>
        rw [(walk_subdir_nonrecursive g w _ name size readErr kids hrec
          (hnames _ (List.mem_cons_self _ _))).1] at he
        simp at he
    intro e he
    rw [walkNames_cons] at he
    split at he
    · exact hhead e he
    · rcases List.mem_append.mp he with h | h
      · exact hhead e h
      · obtain ⟨n, s, hm, hv⟩ := ih' e h
        exact ⟨n, s, List.mem_cons_of_mem _ hm, hv⟩

/-- C3. With the recursion flag off, and the entries of the root listing not
named `.`: walking any subdirectory of the root performs no event whatever it
holds; the whole walk is the same as if every subdirectory of the root were
empty; and every event of the walk (glob test, read, output line) is an event
of `visit` on a non-directory entry directly in the root. -/
theorem C3_nonrecursive_stays_in_root (g : Globals) (w : World) (root rname : String)
    (rsize : Int) (rerr : Option String) (kids : List Tree)
    (hrec : g.flagRecursive = false) (hnames : ∀ k ∈ kids, k.Name ≠ ".") :
    (∀ name size readErr sub path, Tree.dir name size readErr sub ∈ kids →
        (walk g w path (.dir name size readErr sub)).2 = []
        ∧ ∀ sub', walk g w path (.dir name size readErr sub')
            = walk g w path (.dir name size readErr sub))
    ∧ Walk g w root (.dir rname rsize rerr (kids.map pruneKid))
        = Walk g w root (.dir rname rsize rerr kids)
    ∧ (∀ e ∈ (Walk g w root (.dir rname rsize rerr kids)).2, ∃ n s, Tree.entry n s ∈ kids
        ∧ e ∈ (visit g w (w.Join root n) (some ⟨n, s, false⟩) none).2) := by
  refine ⟨?_, ?_, ?_⟩
  · intro name size readErr sub path hmem
    have hdot : name ≠ "." := hnames _ hmem
    refine ⟨(walk_subdir_nonrecursive g w path name size readErr sub hrec hdot).1, ?_⟩
    intro sub'
    rw [(walk_subdir_nonrecursive g w path name size readErr sub hrec hdot).2,
      (walk_subdir_nonrecursive g w path name size readErr sub' hrec hdot).2]
  · unfold Walk
    simp only [walk, walkNames_prune g w root kids hrec hnames]
  · intro e he
    rw [Walk_snd] at he
    cases rerr with
    | some msg => simp [walk_dir_readErr] at he
    | none =>
      by_cases h : rname = "." ∨ (inArray rname g.SkipFolders = false ∧ g.flagRecursive = true)
      · rw [walk_dir_entered g w root rname rsize kids h] at he
        exact walkNames_events_nonrecursive g w root kids hrec hnames e he
      · simp [walk_dir_skipped g w root rname rsize kids h] at he

/-- C3 at a concrete input: root `.` holding `a.go` and a subdirectory `sub`
with `d.go`; only `./a.go` is read. -/
theorem C3_nonrecursive_stays_in_root_witness :
    (redGlobals false).flagRecursive = false
    ∧ (∀ k ∈ [Tree.entry "a.go" 6, Tree.dir "sub" 0 none [Tree.entry "d.go" 6]], k.Name ≠ ".")
    ∧ (walk (redGlobals false) redWorld "./sub" (.dir "sub" 0 none [.entry "d.go" 6])).2 = []
    ∧ reads (Walk (redGlobals false) redWorld "."
        (.dir "." 0 none [.entry "a.go" 6, .dir "sub" 0 none [.entry "d.go" 6]])).2
        = ["./a.go"] :=
  ⟨rfl, by decide,
    ((C3_nonrecursive_stays_in_root (redGlobals false) redWorld "." "." 0 none
      [.entry "a.go" 6, .dir "sub" 0 none [.entry "d.go" 6]] rfl (by decide)).1
        "sub" 0 none [.entry "d.go" 6] "./sub" (by simp)).1,
    by decide⟩

/-! ## C4: content matching -/

theorem indexList_cons (sub : List Char) (c : Char) (t : List Char) :
    indexList sub (c :: t) =
      if sub.isPrefixOf (c :: t) = true then some 0
      else (indexList sub t).map (· + 1) := by
  rw [indexList]

theorem indexList_isSome_iff (sub s : List Char) :
    (indexList sub s).isSome = true ↔ sub <:+: s := by
  induction s with
  | nil =>
    by_cases h : sub = []
    · subst h; simp [indexList]
    · cases sub with
      | nil => exact absurd rfl h
      | cons a l => simp [indexList, List.isPrefixOf]
  | cons c t ih =>
    rw [List.infix_cons_iff, ← ih, ← List.isPrefixOf_iff_prefix, indexList_cons]
    by_cases h : sub.isPrefixOf (c :: t) = true
    · simp [h]
    · simp [h]

theorem Contains_iff (s substr : String) :
    Contains s substr = true ↔ substr.data <:+: s.data := by
  rw [← indexList_isSome_iff]
  unfold Contains Index
  cases h : indexList substr.data s.data with
  | none => simp
  | some i => simp

theorem scanFrom_skip (term : List Char) (k : Nat) (s : List Char) :
    scanFrom term k s = scanFrom term 0 (s.drop k) := by
  induction k generalizing s with
  | zero => simp
  | succ k ih =>
    cases s with
    | nil => simp [scanFrom]
    | cons c t => simp [scanFrom, ih t]

theorem scanFrom_of_index_none (term s : List Char) (h : indexList term s = none) :
    scanFrom term 0 s = 0 := by
  induction s with
  | nil => simp [scanFrom]
  | cons c t ih =>
    rw [indexList_cons] at h
    by_cases hp : term.isPrefixOf (c :: t) = true
    · simp [hp] at h
    · simp only [hp, if_false, Bool.false_eq_true, Option.map_eq_none'] at h
      simp [scanFrom, hp, ih h]

theorem scanFrom_of_index_some (term s : List Char) (i : Nat) (hne : term ≠ [])
    (h : indexList term s = some i) :
    s ≠ [] ∧ scanFrom term 0 s = 1 + scanFrom term 0 (s.drop (i + term.length)) := by
  have hlen : 1 ≤ term.length := by
    cases term with
    | nil => exact absurd rfl hne
    | cons a l => simp
  induction s generalizing i with
  | nil =>
    cases term with
    | nil => exact absurd rfl hne
    | cons a l => simp [indexList, List.isPrefixOf] at h
  | cons c t ih =>
    refine ⟨by simp, ?_⟩
    rw [indexList_cons] at h
    by_cases hp : term.isPrefixOf (c :: t) = true
    · simp only [hp, if_true, Option.some.injEq] at h
      subst h
      have hd : (c :: t).drop (0 + term.length) = t.drop (term.length - 1) := by
        obtain ⟨m, hm⟩ : ∃ m, term.length = m + 1 := ⟨term.length - 1, by omega⟩
        simp [hm]
      rw [hd]
      simp [scanFrom, hp, scanFrom_skip term (term.length - 1) t]
    · simp only [hp, if_false, Bool.false_eq_true, Option.map_eq_some'] at h
      obtain ⟨j, hj, rfl⟩ := h
      have hd : (c :: t).drop (j + 1 + term.length) = t.drop (j + term.length) := by
        rw [show j + 1 + term.length = (j + term.length) + 1 by omega, List.drop_succ_cons]
      rw [hd]
      simp [scanFrom, hp, (ih j hj).2]

/-- The loop of `strings.Count` computes the leftmost-first scan count when it
is given at least `len(s) + 1` iterations. -/
theorem countLoop_eq_scan (term : List Char) (hne : term ≠ []) (fuel : Nat) (s : List Char)
    (n : Nat) (hfuel : s.length + 1 ≤ fuel) :
    countLoop term fuel s n = n + scanFrom term 0 s := by
  induction fuel generalizing s n with
  | zero => omega
  | succ fuel ih =>
    unfold countLoop
    cases h : indexList term s with
    | none => simp [scanFrom_of_index_none term s h]
    | some i =>
      obtain ⟨hs, hscan⟩ := scanFrom_of_index_some term s i hne h
      have hpos : 1 ≤ s.length := by
        cases s with
        | nil => exact absurd rfl hs
        | cons a l => simp
      have hlen : 1 ≤ term.length := by
        cases term with
        | nil => exact absurd rfl hne
        | cons a l => simp
      simp only
      rw [ih (s.drop (i + term.length)) (n + 1) (by rw [List.length_drop]; omega), hscan]
      omega

theorem nonOverlappingFrom_mono (term s : List Char) (lo hi : Nat) (ps : List Nat)
    (hle : lo ≤ hi) (h : nonOverlappingFrom term s hi ps = true) :
    nonOverlappingFrom term s lo ps = true := by
  cases ps with
  | nil => rfl
  | cons p ps =>
    simp only [nonOverlappingFrom, Bool.and_eq_true, decide_eq_true_eq] at h ⊢
    exact ⟨⟨by omega, h.1.2⟩, h.2⟩

theorem nonOverlappingFrom_tail (term : List Char) (c : Char) (t : List Char) (k : Nat)
    (ps : List Nat) (h : nonOverlappingFrom term (c :: t) (k + 1) ps = true) :
    nonOverlappingFrom term t k (ps.map (· - 1)) = true := by
  induction ps generalizing k with
  | nil => rfl
  | cons p ps ih =>
    simp only [nonOverlappingFrom, Bool.and_eq_true, decide_eq_true_eq] at h
    obtain ⟨⟨hk, hp⟩, hrest⟩ := h
    obtain ⟨q, rfl⟩ : ∃ q, p = q + 1 := ⟨p - 1, by omega⟩
    have hrest' : nonOverlappingFrom term (c :: t) (q + term.length + 1) ps = true := by
      rw [show q + term.length + 1 = q + 1 + term.length by omega]; exact hrest
    simp only [List.map_cons, nonOverlappingFrom, Bool.and_eq_true, decide_eq_true_eq,
      Nat.add_sub_cancel]
    rw [List.drop_succ_cons] at hp
    exact ⟨⟨by omega, hp⟩, ih (q + term.length) hrest'⟩

theorem nonOverlappingFrom_cons (term : List Char) (c : Char) (t : List Char) (k : Nat)
    (ps : List Nat) (h : nonOverlappingFrom term t k ps = true) :
    nonOverlappingFrom term (c :: t) (k + 1) (ps.map (· + 1)) = true := by
  induction ps generalizing k with
  | nil => rfl
  | cons p ps ih =>
    simp only [nonOverlappingFrom, Bool.and_eq_true, decide_eq_true_eq] at h
    obtain ⟨⟨hk, hp⟩, hrest⟩ := h
    simp only [List.map_cons, nonOverlappingFrom, Bool.and_eq_true, decide_eq_true_eq,
      List.drop_succ_cons]
    refine ⟨⟨by omega, hp⟩, ?_⟩
    rw [show p + 1 + term.length = p + term.length + 1 by omega]
    exact ih (p + term.length) hrest

/-- No family of non-overlapping occurrences is larger than the scan count. -/
theorem scanFrom_upper (term : List Char) (hne : term ≠ []) (s : List Char) :
    ∀ (k : Nat) (ps : List Nat), nonOverlappingFrom term s k ps = true →
      ps.length ≤ scanFrom term k s := by
  have hlen : 1 ≤ term.length := by
    cases term with
    | nil => exact absurd rfl hne
    | cons a l => simp
  induction s with
  | nil =>
    intro k ps h
    cases ps with
    | nil => simp
    | cons p ps =>
      simp only [nonOverlappingFrom, Bool.and_eq_true, List.drop_nil] at h
      cases term with
      | nil => exact absurd rfl hne
      | cons a l => simp [List.isPrefixOf] at h
  | cons c t ih =>
    intro k ps h
    cases k with
    | succ k =>
      have := ih k _ (nonOverlappingFrom_tail term c t k ps h)
      simpa [scanFrom] using this
    | zero =>
      by_cases hp : term.isPrefixOf (c :: t) = true
      · cases ps with
        | nil => simp
        | cons p rest =>
          simp only [nonOverlappingFrom, Bool.and_eq_true] at h
          have h1 : nonOverlappingFrom term (c :: t) (term.length - 1 + 1) rest = true :=
            nonOverlappingFrom_mono term (c :: t) _ (p + term.length) rest (by omega) h.2
          have h2 := ih (term.length - 1) _
            (nonOverlappingFrom_tail term c t (term.length - 1) rest h1)
          simp only [List.length_map] at h2
          simp only [scanFrom, hp, if_true, List.length_cons]
          omega
      · have h1 : nonOverlappingFrom term (c :: t) (0 + 1) ps = true := by
          cases ps with
          | nil => rfl
          | cons p rest =>
            simp only [nonOverlappingFrom, Bool.and_eq_true, decide_eq_true_eq] at h ⊢
            refine ⟨⟨?_, h.1.2⟩, h.2⟩
            cases p with
            | zero => exact absurd h.1.2 hp
            | succ q => omega
        have h2 := ih 0 _ (nonOverlappingFrom_tail term c t 0 ps h1)
        simp only [List.length_map] at h2
        simpa [scanFrom, hp] using h2

/-- Some family of non-overlapping occurrences has exactly the scan count. -/
theorem scanFrom_attained (term : List Char) (hne : term ≠ []) (s : List Char) :
    ∀ k : Nat, ∃ ps : List Nat, nonOverlappingFrom term s k ps = true
      ∧ ps.length = scanFrom term k s := by
  have hlen : 1 ≤ term.length := by
    cases term with
    | nil => exact absurd rfl hne
    | cons a l => simp
  induction s with
  | nil => intro k; exact ⟨[], rfl, by simp [scanFrom]⟩
  | cons c t ih =>
    intro k
    cases k with
    | succ k =>
      obtain ⟨ps, h1, h2⟩ := ih k
      exact ⟨ps.map (· + 1), nonOverlappingFrom_cons term c t k ps h1, by simp [scanFrom, h2]⟩
    | zero =>
      by_cases hp : term.isPrefixOf (c :: t) = true
      · obtain ⟨ps, h1, h2⟩ := ih (term.length - 1)
        refine ⟨0 :: ps.map (· + 1), ?_, by simp [scanFrom, hp, h2]; omega⟩
        have h3 := nonOverlappingFrom_cons term c t (term.length - 1) ps h1
        rw [show term.length - 1 + 1 = 0 + term.length by omega] at h3
        simp only [nonOverlappingFrom, Bool.and_eq_true, decide_eq_true_eq, List.drop_zero]
        exact ⟨⟨le_refl _, hp⟩, h3⟩
      · obtain ⟨ps, h1, h2⟩ := ih 0
        exact ⟨ps.map (· + 1),
          nonOverlappingFrom_mono term (c :: t) 0 1 _ (by omega)
            (nonOverlappingFrom_cons term c t 0 ps h1),
          by simp [scanFrom, hp, h2]⟩

theorem Count_eq_occurrences (contents term : String) (hterm : term ≠ "") :
    Count contents term = occurrences contents term := by
  have hne : term.data ≠ [] := fun h => hterm (String.ext h)
  have hlen : term.length ≠ 0 := by
    intro h
    exact hne (List.length_eq_zero.mp h)
  have hloop := countLoop_eq_scan term.data hne (contents.length + 1) contents.data 0 (le_refl _)
  unfold Count occurrences
  rw [if_neg hlen, hloop]
  simp

theorem Sprintln_two (a b : String) : Sprintln [a, b] = a ++ " " ++ b := rfl

theorem Sprintln_three (a b c : String) : Sprintln [a, b, c] = a ++ " " ++ b ++ " " ++ c := rfl

theorem Sprintln_contents (path n : String) :
    Sprintln ["Contents:", path, "(" ++ n ++ ")"] = "Contents: " ++ path ++ " (" ++ n ++ ")" := by
  apply String.ext
  simp [Sprintln_three, String.data_append]

theorem mem_stdout_iff (line : String) (tr : List Event) :
    line ∈ stdout tr ↔ ∃ args, Event.Println args ∈ tr ∧ line = Sprintln args := by
  induction tr with
  | nil => simp [stdout]
  | cons e tr ih =>
    cases e with
    | Println a =>
      simp only [stdout, List.mem_cons, ih, Event.Println.injEq]
      constructor
      · rintro (h | ⟨args, h1, h2⟩)
        · exact ⟨a, Or.inl rfl, h⟩
        · exact ⟨args, Or.inr h1, h2⟩
      · rintro ⟨args, h1 | h1, h2⟩
        · subst h1; exact Or.inl h2
        · exact Or.inr ⟨args, h1, h2⟩
    | ReadFile q => simp [stdout, ih]
    | Match a b => simp [stdout, ih]

theorem mem_stdout_of_mem (args : List String) (tr : List Event)
    (h : Event.Println args ∈ tr) : Sprintln args ∈ stdout tr :=
  (mem_stdout_iff _ tr).mpr ⟨args, h, rfl⟩

/-- C4. For a file that passes the glob and the size check and is read, and a
non-empty term: a `Contents:` record is emitted exactly when the term occurs
in the contents as a contiguous, case-sensitive run of characters; the record
names the path and carries the decimal count of non-overlapping occurrences
found by the leftmost-first scan, which is what `strings.Count` returns; the
line printed is `Contents: <path> (<count>)`. That count is the largest size
of a family of pairwise non-overlapping occurrences of the term. -/
theorem C4_contents_record_and_count (g : Globals) (w : World) (path name : String)
    (size : Int) (contents : String)
    (hglob : w.Match g.flagExt name = some true) (hsize : size ≤ g.MaxSize)
    (hread : w.ReadFile path = .ok contents) (hterm : g.flagFind ≠ "") :
    ((∃ args, Event.Println ("Contents:" :: args)
          ∈ (visit g w path (some ⟨name, size, false⟩) none).2)
        ↔ g.flagFind.data <:+: contents.data)
    ∧ (∀ args, Event.Println ("Contents:" :: args)
          ∈ (visit g w path (some ⟨name, size, false⟩) none).2 →
        args = [path, "(" ++ Itoa (occurrences contents g.flagFind) ++ ")"])
    ∧ (g.flagFind.data <:+: contents.data →
        "Contents: " ++ path ++ " (" ++ Itoa (occurrences contents g.flagFind) ++ ")"
          ∈ stdout (visit g w path (some ⟨name, size, false⟩) none).2)
    ∧ Count contents g.flagFind = occurrences contents g.flagFind
    ∧ (∀ ps, nonOverlappingFrom g.flagFind.data contents.data 0 ps = true →
        ps.length ≤ occurrences contents g.flagFind)
    ∧ (∃ ps, nonOverlappingFrom g.flagFind.data contents.data 0 ps = true
        ∧ ps.length = occurrences contents g.flagFind) := by
  have hne : g.flagFind.data ≠ [] := fun h => hterm (String.ext h)
  have hcount := Count_eq_occurrences contents g.flagFind hterm
  have hfwd : ∀ args, Event.Println ("Contents:" :: args)
        ∈ (visit g w path (some ⟨name, size, false⟩) none).2 →
      Contains contents g.flagFind = true
        ∧ args = [path, "(" ++ Itoa (occurrences contents g.flagFind) ++ ")"] := by
    intro args h
    obtain ⟨n, sz, _, _, _, hc⟩ := visit_println g w path _ _ _ h
    rcases hc with ⟨h1, _⟩ | ⟨h1, _⟩ | ⟨h1, _⟩ | ⟨_, c, hc1, hc2, hc3⟩
    · simp at h1
    · simp at h1
    · simp at h1
    · rw [hread] at hc1
      cases hc1
      rw [hcount] at hc3
      simp only [List.cons.injEq, true_and] at hc3
      exact ⟨hc2, hc3⟩
  have hbwd : g.flagFind.data <:+: contents.data →
      Event.Println ["Contents:", path, "(" ++ Itoa (occurrences contents g.flagFind) ++ ")"]
        ∈ (visit g w path (some ⟨name, size, false⟩) none).2 := by
    intro h
    rw [visit_inspected g w path name size contents hglob hsize hread,
      if_pos ((Contains_iff _ _).mpr h), hcount]
    simp
  refine ⟨⟨?_, fun h => ⟨_, hbwd h⟩⟩, fun args h => (hfwd args h).2, ?_, hcount,
    scanFrom_upper _ hne _ 0, scanFrom_attained _ hne _ 0⟩
  · rintro ⟨args, h⟩
    exact (Contains_iff _ _).mp (hfwd args h).1
  · intro h
    rw [← Sprintln_contents]
    exact mem_stdout_of_mem _ _ (hbwd h)

/-- C4 at a concrete input: the term `red` in a file reading `redred` gives the
line `Contents: ./a.go (2)`. -/
theorem C4_contents_record_and_count_witness :
    (redWorld.Match (redGlobals false).flagExt "a.go" = some true)
    ∧ ((6 : Int) ≤ (redGlobals false).MaxSize)
    ∧ (redWorld.ReadFile "./a.go" = .ok "redred")
    ∧ ((redGlobals false).flagFind ≠ "")
    ∧ "Contents: ./a.go (2)"
        ∈ stdout (visit (redGlobals false) redWorld "./a.go" (some ⟨"a.go", 6, false⟩) none).2
    ∧ Count "redred" "red" = 2 :=
  ⟨rfl, by decide, rfl, by decide,
    (C4_contents_record_and_count (redGlobals false) redWorld "./a.go" "a.go" 6 "redred"
      rfl (by decide) rfl (by decide)).2.2.1 ((indexList_isSome_iff _ _).mp (by decide)),
    by decide⟩

/-! ## C5: the size threshold -/

/-- C5. With `MaxSize` at 1,048,576 and a file name that passes the glob: a
file of at most 1,048,576 bytes, so one of exactly that size, is read, and
when the read succeeds both match tests run; a file of 1,048,577 bytes or
more makes `visit` print the one line `**ERROR: Skipping file too big <path>`,
read nothing, emit no match record and return `nil`. -/
theorem C5_size_threshold (g : Globals) (w : World) (path name : String) (size : Int)
    (hmax : g.MaxSize = 1048576) (hglob : w.Match g.flagExt name = some true) :
    (size ≤ 1048576 →
      reads (visit g w path (some ⟨name, size, false⟩) none).2 = [path]
      ∧ ∀ contents, w.ReadFile path = .ok contents →
          (visit g w path (some ⟨name, size, false⟩) none).2 =
            [.Match g.flagExt name, .ReadFile path]
            ++ (if (g.flagName && Contains name g.flagFind) = true
                then [.Println ["Filename:", path]] else [])
            ++ (if Contains contents g.flagFind = true
                then [.Println ["Contents:", path,
                        "(" ++ Itoa (Count contents g.flagFind) ++ ")"]]
                else []))
    ∧ (1048577 ≤ size →
      visit g w path (some ⟨name, size, false⟩) none =
        (.returned none,
          [.Match g.flagExt name, .Println ["**ERROR: Skipping file too big", path]])
      ∧ stdout (visit g w path (some ⟨name, size, false⟩) none).2
          = ["**ERROR: Skipping file too big " ++ path]
      ∧ reads (visit g w path (some ⟨name, size, false⟩) none).2 = []) := by
  constructor
  · intro hs
    have hle : size ≤ g.MaxSize := by rw [hmax]; exact hs
    constructor
    · cases hR : w.ReadFile path with
      | error msg => rw [visit_unreadable g w path name size msg hglob hle hR]; rfl
      | ok c =>
        rw [visit_inspected g w path name size c hglob hle hR]
        by_cases h1 : (g.flagName && Contains name g.flagFind) = true <;>
          by_cases h2 : Contains c g.flagFind = true <;> simp [h1, h2, reads]
    · intro contents hR
      rw [visit_inspected g w path name size contents hglob hle hR]
  · intro hs
    have hgt : size > g.MaxSize := by rw [hmax]; omega
    rw [visit_too_big g w path name size hglob hgt]
    exact ⟨rfl, rfl, rfl⟩

/-- C5 at concrete inputs: a file of exactly 1,048,576 bytes is read, one of
1,048,577 bytes is skipped with the warning. -/
theorem C5_size_threshold_witness :
    (redGlobals false).MaxSize = 1048576
    ∧ redWorld.Match (redGlobals false).flagExt "a.go" = some true
    ∧ reads (visit (redGlobals false) redWorld "./a.go" (some ⟨"a.go", 1048576, false⟩) none).2
        = ["./a.go"]
    ∧ stdout (visit (redGlobals false) redWorld "./a.go" (some ⟨"a.go", 1048577, false⟩) none).2
        = ["**ERROR: Skipping file too big " ++ "./a.go"] :=
  ⟨rfl, rfl,
    ((C5_size_threshold (redGlobals false) redWorld "./a.go" "a.go" 1048576 rfl rfl).1
      (by decide)).1,
    ((C5_size_threshold (redGlobals false) redWorld "./a.go" "a.go" 1048577 rfl rfl).2
      (by decide)).2.1⟩

/-! ## C6: file-name and contents records are independent -/

/-- C6. For an inspected file (glob passed, size within the threshold, read
succeeded) a `Filename:` record is emitted exactly when the file-name flag is
set and the name contains the term, and a `Contents:` record exactly when the
contents contain the term; each depends on its own test only. With the
file-name flag off no call of `visit` emits a `Filename:` record. All four
combinations occur: file name only, contents only, both, neither. -/
theorem C6_records_independent :
    (∀ (g : Globals) (w : World) (path name : String) (size : Int) (contents : String),
      w.Match g.flagExt name = some true → size ≤ g.MaxSize →
      w.ReadFile path = .ok contents →
      ((∃ args, Event.Println ("Filename:" :: args)
            ∈ (visit g w path (some ⟨name, size, false⟩) none).2)
          ↔ (g.flagName = true ∧ g.flagFind.data <:+: name.data))
      ∧ ((∃ args, Event.Println ("Contents:" :: args)
            ∈ (visit g w path (some ⟨name, size, false⟩) none).2)
          ↔ g.flagFind.data <:+: contents.data))
    ∧ (∀ (g : Globals) (w : World) (path : String) (fi : Option FileInfo)
        (err : Option GoError) (args : List String), g.flagName = false →
        Event.Println ("Filename:" :: args) ∉ (visit g w path fi err).2)
    ∧ stdout (visit (redGlobals false) (worldReading "blue") "./red_b.go"
        (some ⟨"red_b.go", 4, false⟩) none).2 = ["Filename: ./red_b.go"]
    ∧ stdout (visit (redGlobals false) (worldReading "redred") "./a.go"
        (some ⟨"a.go", 6, false⟩) none).2 = ["Contents: ./a.go (2)"]
    ∧ stdout (visit (redGlobals false) (worldReading "redred") "./red_b.go"
        (some ⟨"red_b.go", 6, false⟩) none).2
        = ["Filename: ./red_b.go", "Contents: ./red_b.go (2)"]
    ∧ stdout (visit (redGlobals false) (worldReading "blue") "./a.go"
        (some ⟨"a.go", 4, false⟩) none).2 = [] := by
  refine ⟨?_, ?_, by decide, by decide, by decide, by decide⟩
  · intro g w path name size contents hglob hsize hread
    rw [visit_inspected g w path name size contents hglob hsize hread]
    constructor
    · constructor
      · rintro ⟨args, h⟩
        by_cases h1 : (g.flagName && Contains name g.flagFind) = true
        · simp only [Bool.and_eq_true] at h1
          exact ⟨h1.1, (Contains_iff _ _).mp h1.2⟩
        · by_cases h2 : Contains contents g.flagFind = true <;> simp [h1, h2] at h
      · rintro ⟨hn, hc⟩
        have h1 : (g.flagName && Contains name g.flagFind) = true := by
          simp [hn, (Contains_iff _ _).mpr hc]
        exact ⟨[path], by simp [h1]⟩
    · constructor
      · rintro ⟨args, h⟩
        by_cases h2 : Contains contents g.flagFind = true
        · exact (Contains_iff _ _).mp h2
        · by_cases h1 : (g.flagName && Contains name g.flagFind) = true <;>
            simp [h1, h2] at h
      · intro hc
        have h2 : Contains contents g.flagFind = true := (Contains_iff _ _).mpr hc
        exact ⟨[path, "(" ++ Itoa (Count contents g.flagFind) ++ ")"], by simp [h2]⟩
  · intro g w path fi err args hoff h
    obtain ⟨n, sz, _, _, _, hc⟩ := visit_println g w path fi err _ h
    rcases hc with ⟨h1, _⟩ | ⟨h1, _⟩ | ⟨_, _, hn, _⟩ | ⟨_, c, _, _, h1⟩
    · simp at h1
    · simp at h1
    · rw [hoff] at hn; cases hn
    · simp at h1

/-- C6 at a concrete input: term `red`, file `red_b.go` reading `blue`, file-name
flag on: the `Filename:` record is emitted, the `Contents:` record is not. -/
theorem C6_records_independent_witness :
    ((worldReading "blue").Match (redGlobals false).flagExt "red_b.go" = some true)
    ∧ ((4 : Int) ≤ (redGlobals false).MaxSize)
    ∧ ((worldReading "blue").ReadFile "./red_b.go" = .ok "blue")
    ∧ (∃ args, Event.Println ("Filename:" :: args)
          ∈ (visit (redGlobals false) (worldReading "blue") "./red_b.go"
              (some ⟨"red_b.go", 4, false⟩) none).2)
    ∧ ¬ (∃ args, Event.Println ("Contents:" :: args)
          ∈ (visit (redGlobals false) (worldReading "blue") "./red_b.go"
              (some ⟨"red_b.go", 4, false⟩) none).2) :=
  ⟨rfl, by decide, rfl,
    ((C6_records_independent.1 (redGlobals false) (worldReading "blue") "./red_b.go"
      "red_b.go" 4 "blue" rfl (by decide) rfl).1).mpr
        ⟨rfl, (indexList_isSome_iff _ _).mp (by decide)⟩,
    fun h => absurd ((indexList_isSome_iff _ _).mpr
      (((C6_records_independent.1 (redGlobals false) (worldReading "blue") "./red_b.go"
        "red_b.go" 4 "blue" rfl (by decide) rfl).2).mp h)) (by decide)⟩

/-! ## C7, C8: which errors end the run -/

theorem descends_iff (g : Globals) (name : String) :
    descends g name = true
      ↔ (name = "." ∨ (inArray name g.SkipFolders = false ∧ g.flagRecursive = true)) := by
  simp [descends]

theorem stops_of_error (t : Tree) (o : Outcome) (h1 : o ≠ .returned none)
    (h2 : o ≠ .returned (some .SkipDir)) : stops t o = true := by
  cases t <;> simp [stops, h1, h2]

theorem stops_nil (t : Tree) : stops t (.returned none) = false := by
  cases t <;> simp [stops]

mutual
/-- How a walk can end: with `nil`, with `SkipDir`, with `ErrBadPattern` when
the matcher rejected the pattern on some name, or with the error of a failing
`Lstat` or listing of the tree. It never panics. -/
theorem walk_outcome (g : Globals) (w : World) : ∀ (t : Tree) (path : String),
    (walk g w path t).1 = .returned none
    ∨ (walk g w path t).1 = .returned (some .SkipDir)
    ∨ ((walk g w path t).1 = .returned (some .ErrBadPattern)
        ∧ ∃ name, w.Match g.flagExt name = none)
    ∨ ∃ msg, (walk g w path t).1 = .returned (some (.PathError msg))
        ∧ msg ∈ traversalErrors t
  | .entry name size, path => by
    rcases visit_file_outcome g w path name size with h | ⟨h, hm⟩
    · exact Or.inl h
    · exact Or.inr (Or.inr (Or.inl ⟨h, name, hm⟩))
  | .lstatErr name msg, path => by
    exact Or.inr (Or.inr (Or.inr ⟨msg, rfl, by simp [traversalErrors]⟩))
  | .dir name size (some msg) kids, path => by
    rw [walk_dir_readErr]
    exact Or.inr (Or.inr (Or.inr ⟨msg, rfl, by simp [traversalErrors]⟩))
  | .dir name size none kids, path => by
    by_cases h : name = "." ∨ (inArray name g.SkipFolders = false ∧ g.flagRecursive = true)
    · rw [walk_dir_entered g w path name size kids h]
      rcases walkNames_outcome g w kids path with h1 | h1 | ⟨msg, h1, h2⟩
      · exact Or.inl h1
      · exact Or.inr (Or.inr (Or.inl h1))
      · exact Or.inr (Or.inr (Or.inr ⟨msg, h1, by simp [traversalErrors, h2]⟩))
    · rw [walk_dir_skipped g w path name size kids h]
      exact Or.inr (Or.inl rfl)
/-- The same for the loop over a listing, which never ends with `SkipDir`. -/
theorem walkNames_outcome (g : Globals) (w : World) : ∀ (ks : List Tree) (path : String),
    (walkNames g w path ks).1 = .returned none
    ∨ ((walkNames g w path ks).1 = .returned (some .ErrBadPattern)
        ∧ ∃ name, w.Match g.flagExt name = none)
    ∨ ∃ msg, (walkNames g w path ks).1 = .returned (some (.PathError msg))
        ∧ msg ∈ traversalErrorsList ks
  | [], path => Or.inl (by rw [walkNames_nil])
  | t :: rest, path => by
    have hne := walkNames_ne_skipDir g w path (t :: rest)
    rw [walkNames_cons] at hne ⊢
    by_cases hs : stops t (walk g w (w.Join path t.Name) t).1 = true
    · rw [if_pos hs] at hne ⊢
      rcases walk_outcome g w t (w.Join path t.Name) with h1 | h1 | h1 | ⟨msg, h1, h2⟩
      · exact Or.inl h1
      · exact absurd h1 hne
      · exact Or.inr (Or.inl h1)
      · exact Or.inr (Or.inr ⟨msg, h1, by simp [traversalErrorsList, h2]⟩)
    · rw [if_neg hs]
      rcases walkNames_outcome g w rest path with h1 | h1 | ⟨msg, h1, h2⟩
      · exact Or.inl h1
      · exact Or.inr (Or.inl h1)
      · exact Or.inr (Or.inr ⟨msg, h1, by simp [traversalErrorsList, h2]⟩)
end

mutual
/-- With a pattern the matcher rejects on every name, a walk that reaches a
non-directory entry ends with an error other than `SkipDir`. -/
theorem walk_reaches (g : Globals) (w : World)
    (hbad : ∀ name, w.Match g.flagExt name = none) : ∀ (t : Tree) (path : String),
    reachesFile g t = true →
    (walk g w path t).1 ≠ .returned none ∧ (walk g w path t).1 ≠ .returned (some .SkipDir)
  | .entry name size, path, _ => by
    simp [walk, visit, hbad name]
  | .lstatErr name msg, path, h => by
    simp [reachesFile] at h
  | .dir name size (some msg) kids, path, h => by
    simp [reachesFile] at h
  | .dir name size none kids, path, h => by
    simp only [reachesFile, Bool.and_eq_true, descends_iff] at h
    rw [walk_dir_entered g w path name size kids h.1.2]
    exact ⟨walkNames_reaches g w hbad kids path h.2, walkNames_ne_skipDir g w path kids⟩
/-- The same for the loop over a listing. -/
theorem walkNames_reaches (g : Globals) (w : World)
    (hbad : ∀ name, w.Match g.flagExt name = none) : ∀ (ks : List Tree) (path : String),
    reachesFileList g ks = true → (walkNames g w path ks).1 ≠ .returned none
  | [], path, h => by simp [reachesFileList] at h
  | t :: rest, path, h => by
    rw [walkNames_cons]
    by_cases hs : stops t (walk g w (w.Join path t.Name) t).1 = true
    · rw [if_pos hs]
      intro h0
      rw [h0, stops_nil] at hs
      cases hs
    · rw [if_neg hs]
      simp only [reachesFileList, Bool.or_eq_true] at h
      rcases h with h | h
      · have ht := walk_reaches g w hbad t (w.Join path t.Name) h
        exact absurd (stops_of_error t _ ht.1 ht.2) hs
      · exact walkNames_reaches g w hbad rest path h
end

mutual
/-- A walk that ends with a filesystem error has met a failing `Lstat` or
listing on its way. -/
theorem walk_pathError_meets (g : Globals) (w : World) : ∀ (t : Tree) (path msg : String),
    (walk g w path t).1 = .returned (some (.PathError msg)) → meetsFailure g t = true
  | .entry name size, path, msg, h => by
    rcases visit_file_outcome g w path name size with h' | ⟨h', _⟩ <;>
      simp [walk] at h <;> rw [h'] at h <;> simp at h
  | .lstatErr name m, path, msg, _ => by simp [meetsFailure]
  | .dir name size (some m) kids, path, msg, _ => by simp [meetsFailure]
  | .dir name size none kids, path, msg, h => by
    by_cases hd : name = "." ∨ (inArray name g.SkipFolders = false ∧ g.flagRecursive = true)
    · rw [walk_dir_entered g w path name size kids hd] at h
      simp [meetsFailure, (descends_iff g name).mpr hd,
        walkNames_pathError_meets g w kids path msg h]
    · rw [walk_dir_skipped g w path name size kids hd] at h
      simp at h
/-- The same for the loop over a listing. -/
theorem walkNames_pathError_meets (g : Globals) (w : World) :
    ∀ (ks : List Tree) (path msg : String),
    (walkNames g w path ks).1 = .returned (some (.PathError msg)) →
    meetsFailureList g ks = true
  | [], path, msg, h => by simp [walkNames_nil] at h
  | t :: rest, path, msg, h => by
    rw [walkNames_cons] at h
    by_cases hs : stops t (walk g w (w.Join path t.Name) t).1 = true
    · rw [if_pos hs] at h
      simp [meetsFailureList, walk_pathError_meets g w t _ msg h]
    · rw [if_neg hs] at h
      simp [meetsFailureList, walkNames_pathError_meets g w rest path msg h]
end

mutual
/-- A walk that ends with `ErrBadPattern` has reached a non-directory entry. -/
theorem walk_badPattern_reaches (g : Globals) (w : World) : ∀ (t : Tree) (path : String),
    (walk g w path t).1 = .returned (some .ErrBadPattern) → reachesFile g t = true
  | .entry name size, path, _ => by simp [reachesFile]
  | .lstatErr name m, path, h => by simp [walk, visit] at h
  | .dir name size (some m) kids, path, h => by simp [walk_dir_readErr] at h
  | .dir name size none kids, path, h => by
    by_cases hd : name = "." ∨ (inArray name g.SkipFolders = false ∧ g.flagRecursive = true)
    · rw [walk_dir_entered g w path name size kids hd] at h
      simp [reachesFile, (descends_iff g name).mpr hd,
        walkNames_badPattern_reaches g w kids path h]
    · rw [walk_dir_skipped g w path name size kids hd] at h
      simp at h
/-- The same for the loop over a listing. -/
theorem walkNames_badPattern_reaches (g : Globals) (w : World) :
    ∀ (ks : List Tree) (path : String),
    (walkNames g w path ks).1 = .returned (some .ErrBadPattern) →
    reachesFileList g ks = true
  | [], path, h => by simp [walkNames_nil] at h
  | t :: rest, path, h => by
    rw [walkNames_cons] at h
    by_cases hs : stops t (walk g w (w.Join path t.Name) t).1 = true
    · rw [if_pos hs] at h
      simp [reachesFileList, walk_badPattern_reaches g w t _ h]
    · rw [if_neg hs] at h
      simp [reachesFileList, walkNames_badPattern_reaches g w rest path h]
end

theorem Run_fst (g0 : Globals) (w : World) (text folder ext : String)
    (recursive filename : Bool) (fs : Tree) :
    (Run g0 w text folder ext recursive filename fs).1 =
      if (walk (runGlobals g0 text folder ext recursive filename) w folder fs).1
          = .returned (some .SkipDir)
      then .returned none
      else (walk (runGlobals g0 text folder ext recursive filename) w folder fs).1 := by
  unfold Run Walk
  by_cases h : (walk (runGlobals g0 text folder ext recursive filename) w folder fs).1
      = .returned (some .SkipDir) <;> simp [h]

/-- The outcome of `Run`: `nil`; or `ErrBadPattern`, the matcher having
rejected the pattern on some name of a reached non-directory entry; or the
error of a failing `Lstat` or listing that the walk met. -/
theorem Run_outcome (g0 : Globals) (w : World) (text folder ext : String)
    (recursive filename : Bool) (fs : Tree) :
    (Run g0 w text folder ext recursive filename fs).1 = .returned none
    ∨ ((Run g0 w text folder ext recursive filename fs).1 = .returned (some .ErrBadPattern)
        ∧ (∃ name, w.Match ext name = none)
        ∧ reachesFile (runGlobals g0 text folder ext recursive filename) fs = true)
    ∨ (∃ msg, (Run g0 w text folder ext recursive filename fs).1
          = .returned (some (.PathError msg))
        ∧ meetsFailure (runGlobals g0 text folder ext recursive filename) fs = true) := by
  rw [Run_fst]
  rcases walk_outcome (runGlobals g0 text folder ext recursive filename) w fs folder
    with h | h | ⟨h, hn⟩ | ⟨msg, h, _⟩
  · rw [h]; simp
  · rw [if_pos h]; simp
  · rw [h]
    exact Or.inr (Or.inl ⟨by simp, hn, walk_badPattern_reaches _ w fs folder h⟩)
  · rw [h]
    exact Or.inr (Or.inr ⟨msg, by simp, walk_pathError_meets _ w fs folder msg h⟩)

/-- C7, refuted as stated: with a pattern the matcher rejects on every name,
a run over an empty root directory, and a run without recursion over a root
whose only entry is a subdirectory, both return `nil` and print only the banner. -/
theorem C7_counterexample_no_file_reached :
    (∀ name, badPatternWorld.Match "[" name = none)
    ∧ Run initGlobals badPatternWorld "red" "." "[" true true (.dir "." 0 none [])
        = (.returned none, banner)
    ∧ Run initGlobals badPatternWorld "red" "." "[" false true
          (.dir "." 0 none [.dir "sub" 0 none [.entry "a.go" 6]])
        = (.returned none, banner) :=
  ⟨fun _ => rfl, by decide, by decide⟩

/-- C7, amended. With a pattern the matcher rejects on every name, `Run`
returns a non-nil error whenever the walk reaches a non-directory entry (one
lying below readable directories that `visit` descends into). When in addition
the walk meets no failing `Lstat` or listing, the error is `ErrBadPattern`
exactly in that case, and `Run` returns `nil` exactly when no non-directory
entry is reached. -/
theorem C7_bad_pattern_fails_when_file_reached (g0 : Globals) (w : World)
    (text folder ext : String) (recursive filename : Bool) (fs : Tree)
    (hbad : ∀ name, w.Match ext name = none) :
    (reachesFile (runGlobals g0 text folder ext recursive filename) fs = true →
      ∃ e, (Run g0 w text folder ext recursive filename fs).1 = .returned (some e))
    ∧ (meetsFailure (runGlobals g0 text folder ext recursive filename) fs = false →
        ((Run g0 w text folder ext recursive filename fs).1 = .returned (some .ErrBadPattern)
          ↔ reachesFile (runGlobals g0 text folder ext recursive filename) fs = true)
        ∧ ((Run g0 w text folder ext recursive filename fs).1 = .returned none
          ↔ reachesFile (runGlobals g0 text folder ext recursive filename) fs = false)) := by
  have hbad' : ∀ name, w.Match (runGlobals g0 text folder ext recursive filename).flagExt name
      = none := hbad
  have hout := Run_outcome g0 w text folder ext recursive filename fs
  have hreach : reachesFile (runGlobals g0 text folder ext recursive filename) fs = true →
      (Run g0 w text folder ext recursive filename fs).1 ≠ .returned none := by
    intro h
    obtain ⟨h1, h2⟩ := walk_reaches _ w hbad' fs folder h
    rw [Run_fst, if_neg h2]
    exact h1
  refine ⟨?_, ?_⟩
  · intro h
    rcases hout with h1 | ⟨h1, _⟩ | ⟨msg, h1, _⟩
    · exact absurd h1 (hreach h)
    · exact ⟨_, h1⟩
    · exact ⟨_, h1⟩
  · intro hm
    have hcases : ((Run g0 w text folder ext recursive filename fs).1 = .returned none
          ∧ reachesFile (runGlobals g0 text folder ext recursive filename) fs = false)
        ∨ ((Run g0 w text folder ext recursive filename fs).1
            = .returned (some .ErrBadPattern)
          ∧ reachesFile (runGlobals g0 text folder ext recursive filename) fs = true) := by
      rcases hout with h1 | ⟨h1, _, h2⟩ | ⟨msg, _, h2⟩
      · left
        refine ⟨h1, ?_⟩
        by_contra hr
        exact hreach (by simpa using hr) h1
      · exact Or.inr ⟨h1, h2⟩
      · rw [hm] at h2; cases h2
    rcases hcases with ⟨h1, h2⟩ | ⟨h1, h2⟩
    · simp [h1, h2]
    · simp [h1, h2]

/-- C7 amended, at a concrete input: root `.` holding `a.go`, pattern `[`. -/
theorem C7_bad_pattern_fails_when_file_reached_witness :
    (∀ name, badPatternWorld.Match "[" name = none)
    ∧ reachesFile (runGlobals initGlobals "red" "." "[" false true)
        (.dir "." 0 none [.entry "a.go" 6]) = true
    ∧ ∃ e, (Run initGlobals badPatternWorld "red" "." "[" false true
        (.dir "." 0 none [.entry "a.go" 6])).1 = .returned (some e) :=
  ⟨fun _ => rfl, by decide,
    (C7_bad_pattern_fails_when_file_reached initGlobals badPatternWorld "red" "." "[" false true
      (.dir "." 0 none [.entry "a.go" 6]) (fun _ => rfl)).1 (by decide)⟩

/-- C8. Per-file problems never end the run. When the matcher rejects the
pattern on no name and the walk meets no failing `Lstat` or listing, `Run`
returns `nil` whatever the sizes of the files and whatever reading them gives. A file
that passes the glob and the size check but cannot be read makes `visit` print
the one line `**ERROR: Could not read from <path>`, emit no match record and
return `nil`; and the loop over the listing then goes on with the entries
after it. -/
theorem C8_per_file_problems_not_fatal :
    (∀ (g0 : Globals) (w : World) (text folder ext : String) (recursive filename : Bool)
        (fs : Tree), (∀ name, w.Match ext name ≠ none) →
        meetsFailure (runGlobals g0 text folder ext recursive filename) fs = false →
        (Run g0 w text folder ext recursive filename fs).1 = .returned none)
    ∧ (∀ (g : Globals) (w : World) (path name : String) (size : Int) (msg : String),
        w.Match g.flagExt name = some true → size ≤ g.MaxSize →
        w.ReadFile path = .error msg →
        visit g w path (some ⟨name, size, false⟩) none =
          (.returned none,
            [.Match g.flagExt name, .ReadFile path,
             .Println ["**ERROR: Could not read from", path]])
        ∧ stdout (visit g w path (some ⟨name, size, false⟩) none).2
            = ["**ERROR: Could not read from " ++ path])
    ∧ (∀ (g : Globals) (w : World) (dir name : String) (size : Int) (msg : String)
        (rest : List Tree),
        w.Match g.flagExt name = some true → size ≤ g.MaxSize →
        w.ReadFile (w.Join dir name) = .error msg →
        walkNames g w dir (.entry name size :: rest) =
          ((walkNames g w dir rest).1,
            [.Match g.flagExt name, .ReadFile (w.Join dir name),
             .Println ["**ERROR: Could not read from", w.Join dir name]]
            ++ (walkNames g w dir rest).2)) := by
  refine ⟨?_, ?_, ?_⟩
  · intro g0 w text folder ext recursive filename fs hok he
    rcases Run_outcome g0 w text folder ext recursive filename fs
      with h | ⟨_, ⟨name, hn⟩, _⟩ | ⟨msg, _, hm⟩
    · exact h
    · exact absurd hn (hok name)
    · rw [he] at hm; cases hm
  · intro g w path name size msg hglob hsize hread
    rw [visit_unreadable g w path name size msg hglob hsize hread]
    exact ⟨rfl, rfl⟩
  · intro g w dir name size msg rest hglob hsize hread
    have hv := visit_unreadable g w (w.Join dir name) name size msg hglob hsize hread
    rw [walkNames_cons_continue]
    · simp only [walk, Tree.Name, hv]
    · simp only [walk, Tree.Name, hv, stops_nil]

/-- C8 at a concrete input: root `.` holding two files that cannot be read;
both warnings are printed and the run returns `nil`. -/
theorem C8_per_file_problems_not_fatal_witness :
    (∀ name, unreadableWorld.Match "*.go" name ≠ none)
    ∧ meetsFailure (runGlobals initGlobals "red" "." "*.go" false true)
        (.dir "." 0 none [.entry "a.go" 6, .entry "b.go" 6]) = false
    ∧ (Run initGlobals unreadableWorld "red" "." "*.go" false true
        (.dir "." 0 none [.entry "a.go" 6, .entry "b.go" 6])).1 = .returned none
    ∧ stdout (Run initGlobals unreadableWorld "red" "." "*.go" false true
        (.dir "." 0 none [.entry "a.go" 6, .entry "b.go" 6])).2
        = ["", "Search Results", "==============",
           "**ERROR: Could not read from ./a.go", "**ERROR: Could not read from ./b.go"] :=
  ⟨fun _ => by simp [unreadableWorld], by decide,
    C8_per_file_problems_not_fatal.1 initGlobals unreadableWorld "red" "." "*.go" false true
      (.dir "." 0 none [.entry "a.go" 6, .entry "b.go" 6])
      (fun _ => by simp [unreadableWorld]) (by decide),
    by decide⟩

/-! ## C9: traversal errors -/

/-- C9. Called with a pre-existing error, `visit` returns exactly that error
and performs no event, for every path and every file info, the absent one
included. A failing `Lstat` or listing yields that error at its node; inside a
listing the loop then returns the error with the events performed so far,
whatever entries follow; a directory the walk has entered passes the error of
its listing loop on; and `Run` returns it, its trace being the banner followed
by the events performed before the failure. -/
theorem C9_fail_fast :
    (∀ (g : Globals) (w : World) (path : String) (fi : Option FileInfo) (e : GoError),
        visit g w path fi (some e) = (.returned (some e), []))
    ∧ (∀ (g : Globals) (w : World) (path name msg : String) (size : Int) (kids : List Tree),
        walk g w path (.lstatErr name msg) = (.returned (some (.PathError msg)), [])
        ∧ walk g w path (.dir name size (some msg) kids)
            = (.returned (some (.PathError msg)), []))
    ∧ (∀ (g : Globals) (w : World) (dir : String) (pre post : List Tree) (t : Tree)
        (msg : String), (walkNames g w dir pre).1 = .returned none →
        (walk g w (w.Join dir t.Name) t).1 = .returned (some (.PathError msg)) →
        walkNames g w dir (pre ++ t :: post) =
          (.returned (some (.PathError msg)),
            (walkNames g w dir pre).2 ++ (walk g w (w.Join dir t.Name) t).2))
    ∧ (∀ (g : Globals) (w : World) (path name : String) (size : Int) (kids : List Tree),
        descends g name = true →
        walk g w path (.dir name size none kids) = walkNames g w path kids)
    ∧ (∀ (g0 : Globals) (w : World) (text folder ext : String) (recursive filename : Bool)
        (fs : Tree) (msg : String),
        (walk (runGlobals g0 text folder ext recursive filename) w folder fs).1
          = .returned (some (.PathError msg)) →
        Run g0 w text folder ext recursive filename fs =
          (.returned (some (.PathError msg)),
            banner ++ (walk (runGlobals g0 text folder ext recursive filename) w folder fs).2))
    := by
  refine ⟨fun g w path fi e => rfl, ?_, ?_, ?_, ?_⟩
  · intro g w path name msg size kids
    exact ⟨rfl, walk_dir_readErr g w path name size msg kids⟩
  · intro g w dir pre post t msg hpre ht
    have hs : stops t (walk g w (w.Join dir t.Name) t).1 = true := by
      rw [ht]; exact stops_of_error t _ (by simp) (by simp)
    rw [walkNames_append, if_pos hpre, walkNames_cons_stop g w dir t post hs, ht]
  · intro g w path name size kids hd
    exact walk_dir_entered g w path name size kids ((descends_iff g name).mp hd)
  · intro g0 w text folder ext recursive filename fs msg h
    unfold Run Walk
    simp [h]

/-- C9 at a concrete input: root `.` holding `a.go`, then a name whose `Lstat`
fails, then `z.go`: the run returns the error, the line for `a.go` stays, and
`z.go` is never read. -/
theorem C9_fail_fast_witness :
    (walkNames (redGlobals true) redWorld "." [.entry "a.go" 6]).1 = .returned none
    ∧ (walk (redGlobals true) redWorld (redWorld.Join "." (Tree.lstatErr "gone" "no such file").Name)
          (.lstatErr "gone" "no such file")).1 = .returned (some (.PathError "no such file"))
    ∧ walkNames (redGlobals true) redWorld "."
          ([.entry "a.go" 6] ++ .lstatErr "gone" "no such file" :: [.entry "z.go" 6])
        = (.returned (some (.PathError "no such file")),
            (walkNames (redGlobals true) redWorld "." [.entry "a.go" 6]).2
              ++ (walk (redGlobals true) redWorld
                    (redWorld.Join "." (Tree.lstatErr "gone" "no such file").Name)
                    (.lstatErr "gone" "no such file")).2)
    ∧ Run initGlobals redWorld "red" "." "*.go" true true
          (.dir "." 0 none [.entry "a.go" 6, .lstatErr "gone" "no such file", .entry "z.go" 6])
        = (.returned (some (.PathError "no such file")),
            banner ++ [.Match "*.go" "a.go", .ReadFile "./a.go",
                       .Println ["Contents:", "./a.go", "(2)"]]) :=
  ⟨by decide, by decide,
    C9_fail_fast.2.2.1 (redGlobals true) redWorld "." [.entry "a.go" 6] [.entry "z.go" 6]
      (.lstatErr "gone" "no such file") "no such file" (by decide) (by decide),
    by decide⟩

/-! ## C10: the four output forms -/

/-- C10. Every line `visit` prints is one of the four documented forms, built
from the path it was called with: `Filename: <path>`; `Contents: <path> (<n>)`
with `<n>` the decimal rendering of the count of the term in the contents read
from that path; `**ERROR: Skipping file too big <path>`;
`**ERROR: Could not read from <path>`. The four forms are pairwise different
strings, so a line has exactly one of them. -/
theorem C10_output_forms (g : Globals) (w : World) (path : String) (fi : Option FileInfo)
    (err : Option GoError) (line : String)
    (h : line ∈ stdout (visit g w path fi err).2) :
    (line = "Filename: " ++ path
      ∨ (∃ contents, w.ReadFile path = .ok contents
          ∧ line = "Contents: " ++ path ++ " (" ++ Itoa (Count contents g.flagFind) ++ ")")
      ∨ line = "**ERROR: Skipping file too big " ++ path
      ∨ line = "**ERROR: Could not read from " ++ path)
    ∧ (∀ n : String,
        "Filename: " ++ path ≠ "Contents: " ++ path ++ " (" ++ n ++ ")"
        ∧ "Filename: " ++ path ≠ "**ERROR: Skipping file too big " ++ path
        ∧ "Filename: " ++ path ≠ "**ERROR: Could not read from " ++ path
        ∧ "Contents: " ++ path ++ " (" ++ n ++ ")" ≠ "**ERROR: Skipping file too big " ++ path
        ∧ "Contents: " ++ path ++ " (" ++ n ++ ")" ≠ "**ERROR: Could not read from " ++ path
        ∧ "**ERROR: Skipping file too big " ++ path
            ≠ "**ERROR: Could not read from " ++ path) := by
  constructor
  · obtain ⟨args, hmem, rfl⟩ := (mem_stdout_iff line _).mp h
    obtain ⟨name, size, _, _, _, hc⟩ := visit_println g w path fi err args hmem
    rcases hc with ⟨h1, _⟩ | ⟨h1, _⟩ | ⟨h1, _⟩ | ⟨_, c, hc1, _, h1⟩
    · subst h1; exact Or.inr (Or.inr (Or.inl rfl))
    · subst h1; exact Or.inr (Or.inr (Or.inr rfl))
    · subst h1; exact Or.inl rfl
    · subst h1; exact Or.inr (Or.inl ⟨c, hc1, Sprintln_contents _ _⟩)
  · intro n
    refine ⟨?_, ?_, ?_, ?_, ?_, ?_⟩ <;>
    · intro hh
      have hd := congrArg String.data hh
      simp [String.data_append] at hd

/-- C10 at a concrete input: the one line printed for `a.go` reading `redred`. -/
theorem C10_output_forms_witness :
    "Contents: ./a.go (2)"
        ∈ stdout (visit (redGlobals false) redWorld "./a.go" (some ⟨"a.go", 6, false⟩) none).2
    ∧ ("Contents: ./a.go (2)" = "Filename: " ++ "./a.go"
      ∨ (∃ contents, redWorld.ReadFile "./a.go" = .ok contents
          ∧ "Contents: ./a.go (2)" = "Contents: " ++ "./a.go" ++ " ("
              ++ Itoa (Count contents (redGlobals false).flagFind) ++ ")")
      ∨ "Contents: ./a.go (2)" = "**ERROR: Skipping file too big " ++ "./a.go"
      ∨ "Contents: ./a.go (2)" = "**ERROR: Could not read from " ++ "./a.go") :=
  ⟨by decide,
    (C10_output_forms (redGlobals false) redWorld "./a.go" (some ⟨"a.go", 6, false⟩) none
      "Contents: ./a.go (2)" (by decide)).1⟩

/-! ## C12: the directory decision table -/

theorem inArray_iff (a : String) (list : List String) :
    inArray a list = true ↔ a ∈ list := by
  induction list with
  | nil => simp [inArray]
  | cons b rest ih =>
    by_cases h : b = a
    · simp [inArray, h]
    · have h' : ¬ a = b := fun e => h e.symm
      simp [inArray, h, h', ih]

/-- C12. For a directory entry received without a pre-existing error, `visit`
returns `nil` (continue) exactly when the name is `.`, or the name is not in
the exclusion set and the recursion flag is set; in every other case it
returns `SkipDir`. It never returns another error, performs no event (no
output, no glob test, no read), and its result does not depend on the glob
matcher, so a malformed pattern causes no error on a directory. -/
theorem C12_directory_decision (g : Globals) (w : World) (path name : String) (size : Int) :
    ((visit g w path (some ⟨name, size, true⟩) none).1 = .returned none
        ↔ (name = "." ∨ (name ∉ g.SkipFolders ∧ g.flagRecursive = true)))
    ∧ ((visit g w path (some ⟨name, size, true⟩) none).1 = .returned (some .SkipDir)
        ↔ ¬ (name = "." ∨ (name ∉ g.SkipFolders ∧ g.flagRecursive = true)))
    ∧ (visit g w path (some ⟨name, size, true⟩) none).2 = []
    ∧ (∀ w' : World, visit g w' path (some ⟨name, size, true⟩) none
        = visit g w path (some ⟨name, size, true⟩) none)
    ∧ visit g badPatternWorld path (some ⟨name, size, true⟩) none
        = visit g w path (some ⟨name, size, true⟩) none := by
  have hin : inArray name g.SkipFolders = false ↔ name ∉ g.SkipFolders := by
    rw [← inArray_iff]; simp
  have hcond : (name = "." ∨ (inArray name g.SkipFolders = false ∧ g.flagRecursive = true))
      ↔ (name = "." ∨ (name ∉ g.SkipFolders ∧ g.flagRecursive = true)) := by
    rw [hin]
  refine ⟨?_, ?_, by rw [visit_dir], fun w' => by rw [visit_dir, visit_dir],
    by rw [visit_dir, visit_dir]⟩
  · rw [visit_dir, ← hcond]
    by_cases h : name = "." ∨ (inArray name g.SkipFolders = false ∧ g.flagRecursive = true)
    · simp [h]
    · simp [h]
  · rw [visit_dir, ← hcond]
    by_cases h : name = "." ∨ (inArray name g.SkipFolders = false ∧ g.flagRecursive = true)
    · simp [h]
    · simp [h]

/-! ## C13: extension filtering -/

/-- C13. For a non-directory entry received without a pre-existing error: when
the matcher reports a malformed pattern, `visit` returns `ErrBadPattern` and
prints and reads nothing; when the pattern is well-formed and does not match
the name, `visit` returns `nil`, prints and reads nothing, and its result is
the same for every size of the file and whatever reading files would give. -/
theorem C13_extension_filter (g : Globals) (w : World) (path name : String) (size : Int) :
    (w.Match g.flagExt name = none →
      visit g w path (some ⟨name, size, false⟩) none
        = (.returned (some .ErrBadPattern), [.Match g.flagExt name])
      ∧ stdout (visit g w path (some ⟨name, size, false⟩) none).2 = []
      ∧ reads (visit g w path (some ⟨name, size, false⟩) none).2 = [])
    ∧ (w.Match g.flagExt name = some false →
      visit g w path (some ⟨name, size, false⟩) none
        = (.returned none, [.Match g.flagExt name])
      ∧ stdout (visit g w path (some ⟨name, size, false⟩) none).2 = []
      ∧ reads (visit g w path (some ⟨name, size, false⟩) none).2 = []
      ∧ ∀ (size' : Int) (readFile' : String → Except String String),
          visit g { w with ReadFile := readFile' } path (some ⟨name, size', false⟩) none
            = visit g w path (some ⟨name, size, false⟩) none) := by
  constructor
  · intro h
    have hv : visit g w path (some ⟨name, size, false⟩) none
        = (.returned (some .ErrBadPattern), [.Match g.flagExt name]) := by
      simp [visit, h]
    rw [hv]
    exact ⟨rfl, rfl, rfl⟩
  · intro h
    have hv : ∀ (size' : Int) (readFile' : String → Except String String),
        visit g { w with ReadFile := readFile' } path (some ⟨name, size', false⟩) none
          = (.returned none, [.Match g.flagExt name]) := by
      intro size' readFile'
      simp [visit, h]
    have hv0 : visit g w path (some ⟨name, size, false⟩) none
        = (.returned none, [.Match g.flagExt name]) := hv size w.ReadFile
    rw [hv0]
    exact ⟨rfl, rfl, rfl, hv⟩

/-- C13 at concrete inputs: a matcher that rejects the pattern gives
`ErrBadPattern` on `a.go`; one that does not match `a.go` gives `nil` and no line. -/
theorem C13_extension_filter_witness :
    badPatternWorld.Match (redGlobals false).flagExt "a.go" = none
    ∧ visit (redGlobals false) badPatternWorld "./a.go" (some ⟨"a.go", 6, false⟩) none
        = (.returned (some .ErrBadPattern), [.Match "*.go" "a.go"])
    ∧ noMatchWorld.Match (redGlobals false).flagExt "a.go" = some false
    ∧ visit (redGlobals false) noMatchWorld "./a.go" (some ⟨"a.go", 6, false⟩) none
        = (.returned none, [.Match "*.go" "a.go"]) :=
  ⟨rfl,
    ((C13_extension_filter (redGlobals false) badPatternWorld "./a.go" "a.go" 6).1 rfl).1,
    rfl,
    ((C13_extension_filter (redGlobals false) noMatchWorld "./a.go" "a.go" 6).2 rfl).1⟩

/-! ## C15: the file-name record needs the size check and the read -/

/-- C15. For a file that passes the glob and whose name contains the term,
with the file-name flag on: when the file is larger than `MaxSize`, or when it
is within the threshold and reading it fails, `visit` prints only the
corresponding warning line and emits no `Filename:` record; the record is
emitted once the file is within the threshold and has been read. -/
theorem C15_filename_record_gated (g : Globals) (w : World) (path name : String)
    (size : Int) (hglob : w.Match g.flagExt name = some true)
    (hflag : g.flagName = true) (hname : Contains name g.flagFind = true) :
    (size > g.MaxSize →
      stdout (visit g w path (some ⟨name, size, false⟩) none).2
        = ["**ERROR: Skipping file too big " ++ path]
      ∧ ∀ args, Event.Println ("Filename:" :: args)
          ∉ (visit g w path (some ⟨name, size, false⟩) none).2)
    ∧ (size ≤ g.MaxSize → ∀ msg, w.ReadFile path = .error msg →
      stdout (visit g w path (some ⟨name, size, false⟩) none).2
        = ["**ERROR: Could not read from " ++ path]
      ∧ ∀ args, Event.Println ("Filename:" :: args)
          ∉ (visit g w path (some ⟨name, size, false⟩) none).2)
    ∧ (size ≤ g.MaxSize → ∀ contents, w.ReadFile path = .ok contents →
      Event.Println ["Filename:", path]
        ∈ (visit g w path (some ⟨name, size, false⟩) none).2) := by
  refine ⟨?_, ?_, ?_⟩
  · intro hs
    rw [visit_too_big g w path name size hglob hs]
    exact ⟨rfl, by simp⟩
  · intro hs msg hread
    rw [visit_unreadable g w path name size msg hglob hs hread]
    exact ⟨rfl, by simp⟩
  · intro hs contents hread
    rw [visit_inspected g w path name size contents hglob hs hread]
    simp [hflag, hname]

/-- C15 at concrete inputs: `red_b.go` with term `red`, once too big and once
unreadable; each time the warning is the only line. -/
theorem C15_filename_record_gated_witness :
    redWorld.Match (redGlobals false).flagExt "red_b.go" = some true
    ∧ (redGlobals false).flagName = true
    ∧ Contains "red_b.go" (redGlobals false).flagFind = true
    ∧ stdout (visit (redGlobals false) redWorld "./red_b.go"
          (some ⟨"red_b.go", 1048577, false⟩) none).2
        = ["**ERROR: Skipping file too big " ++ "./red_b.go"]
    ∧ stdout (visit (redGlobals false) unreadableWorld "./red_b.go"
          (some ⟨"red_b.go", 6, false⟩) none).2
        = ["**ERROR: Could not read from " ++ "./red_b.go"] :=
  ⟨rfl, rfl, by decide,
    ((C15_filename_record_gated (redGlobals false) redWorld "./red_b.go" "red_b.go" 1048577
      rfl rfl (by decide)).1 (by decide)).1,
    ((C15_filename_record_gated (redGlobals false) unreadableWorld "./red_b.go" "red_b.go" 6
      rfl rfl (by decide)).2.1 (by decide) "permission denied" rfl).1⟩

/-! ## C16: the count of a contents record is positive -/

theorem Contains_empty (s : String) : Contains s "" = true := by
  rw [Contains_iff]
  exact List.nil_infix

theorem Count_empty (s : String) : Count s "" = s.length + 1 := by
  simp [Count]

theorem Count_pos (s term : String) (h : Contains s term = true) : 1 ≤ Count s term := by
  by_cases hterm : term = ""
  · subst hterm
    rw [Count_empty]
    omega
  · have hne : term.data ≠ [] := fun e => hterm (String.ext e)
    rw [Count_eq_occurrences s term hterm]
    have hsome := (indexList_isSome_iff term.data s.data).mpr ((Contains_iff s term).mp h)
    cases hi : indexList term.data s.data with
    | none => rw [hi] at hsome; simp at hsome
    | some i =>
      unfold occurrences
      rw [(scanFrom_of_index_some term.data s.data i hne hi).2]
      omega

/-- C16. Every `Contents:` record `visit` emits, for every term, the empty one
included, comes from contents read from the path that contain the term, and
carries a count of at least 1. With the empty term every inspected file gets
the record, and the count is the number of characters of the contents plus one. -/
theorem C16_count_positive :
    (∀ (g : Globals) (w : World) (path : String) (fi : Option FileInfo)
        (err : Option GoError) (args : List String),
        Event.Println ("Contents:" :: args) ∈ (visit g w path fi err).2 →
        ∃ contents, w.ReadFile path = .ok contents
          ∧ g.flagFind.data <:+: contents.data
          ∧ 1 ≤ Count contents g.flagFind
          ∧ args = [path, "(" ++ Itoa (Count contents g.flagFind) ++ ")"])
    ∧ (∀ (g : Globals) (w : World) (path name : String) (size : Int) (contents : String),
        w.Match g.flagExt name = some true → size ≤ g.MaxSize →
        w.ReadFile path = .ok contents → g.flagFind = "" →
        Event.Println ["Contents:", path, "(" ++ Itoa (contents.length + 1) ++ ")"]
          ∈ (visit g w path (some ⟨name, size, false⟩) none).2)
    ∧ (∀ contents : String, Contains contents "" = true
        ∧ Count contents "" = contents.length + 1) := by
  refine ⟨?_, ?_, fun c => ⟨Contains_empty c, Count_empty c⟩⟩
  · intro g w path fi err args h
    obtain ⟨n, sz, _, _, _, hc⟩ := visit_println g w path fi err _ h
    rcases hc with ⟨h1, _⟩ | ⟨h1, _⟩ | ⟨h1, _⟩ | ⟨_, c, hc1, hc2, hc3⟩
    · simp at h1
    · simp at h1
    · simp at h1
    · simp only [List.cons.injEq, true_and] at hc3
      exact ⟨c, hc1, (Contains_iff _ _).mp hc2, Count_pos c g.flagFind hc2, hc3⟩
  · intro g w path name size contents hglob hsize hread hterm
    rw [visit_inspected g w path name size contents hglob hsize hread, hterm,
      if_pos (Contains_empty contents), Count_empty]
    simp

/-- C16 at a concrete input: the empty term on a file reading `redred` gives
the record with count 7. -/
theorem C16_count_positive_witness :
    redWorld.Match "*.go" "a.go" = some true
    ∧ (6 : Int) ≤ 1048576
    ∧ redWorld.ReadFile "./a.go" = .ok "redred"
    ∧ Event.Println ["Contents:", "./a.go", "(" ++ Itoa ("redred".length + 1) ++ ")"]
        ∈ (visit { redGlobals false with flagFind := "" } redWorld "./a.go"
            (some ⟨"a.go", 6, false⟩) none).2
    ∧ Itoa ("redred".length + 1) = "7" :=
  ⟨rfl, by decide, rfl,
    C16_count_positive.2.1 { redGlobals false with flagFind := "" } redWorld "./a.go" "a.go" 6
      "redred" rfl (by decide) rfl rfl,
    by decide⟩

/-! ## C17: the shape of the output for one entry -/

/-- C17. The lines one call of `visit` prints are one of: nothing; the size
warning alone; the read warning alone; the `Filename:` line alone; the
`Contents:` line alone; or the `Filename:` line immediately followed by the
`Contents:` line, both naming the path of the call. So there are at most two
lines, a warning is always the only line, and the two warnings never occur
together. -/
theorem C17_output_shape (g : Globals) (w : World) (path : String) (fi : Option FileInfo)
    (err : Option GoError) :
    (stdout (visit g w path fi err).2 = []
      ∨ stdout (visit g w path fi err).2 = ["**ERROR: Skipping file too big " ++ path]
      ∨ stdout (visit g w path fi err).2 = ["**ERROR: Could not read from " ++ path]
      ∨ stdout (visit g w path fi err).2 = ["Filename: " ++ path]
      ∨ (∃ n, stdout (visit g w path fi err).2
          = ["Contents: " ++ path ++ " (" ++ Itoa n ++ ")"])
      ∨ (∃ n, stdout (visit g w path fi err).2
          = ["Filename: " ++ path, "Contents: " ++ path ++ " (" ++ Itoa n ++ ")"]))
    ∧ (stdout (visit g w path fi err).2).length ≤ 2 := by
  have key : stdout (visit g w path fi err).2 = []
      ∨ stdout (visit g w path fi err).2 = ["**ERROR: Skipping file too big " ++ path]
      ∨ stdout (visit g w path fi err).2 = ["**ERROR: Could not read from " ++ path]
      ∨ stdout (visit g w path fi err).2 = ["Filename: " ++ path]
      ∨ (∃ n, stdout (visit g w path fi err).2
          = ["Contents: " ++ path ++ " (" ++ Itoa n ++ ")"])
      ∨ (∃ n, stdout (visit g w path fi err).2
          = ["Filename: " ++ path, "Contents: " ++ path ++ " (" ++ Itoa n ++ ")"]) := by
    cases err with
    | some e => exact Or.inl rfl
    | none =>
      cases fi with
      | none => exact Or.inl rfl
      | some info =>
        obtain ⟨name, size, isDir⟩ := info
        cases isDir with
        | true => rw [visit_dir]; exact Or.inl rfl
        | false =>
          cases hM : w.Match g.flagExt name with
          | none => left; simp [visit, hM, stdout]
          | some m =>
            cases m with
            | false => left; simp [visit, hM, stdout]
            | true =>
              by_cases hs : size > g.MaxSize
              · rw [visit_too_big g w path name size hM hs]
                exact Or.inr (Or.inl rfl)
              · have hle : size ≤ g.MaxSize := not_lt.mp hs
                cases hR : w.ReadFile path with
                | error msg =>
                  rw [visit_unreadable g w path name size msg hM hle hR]
                  exact Or.inr (Or.inr (Or.inl rfl))
                | ok c =>
                  rw [visit_inspected g w path name size c hM hle hR]
                  by_cases h1 : (g.flagName && Contains name g.flagFind) = true <;>
                    by_cases h2 : Contains c g.flagFind = true
                  · refine Or.inr (Or.inr (Or.inr (Or.inr (Or.inr
                      ⟨Count c g.flagFind, ?_⟩))))
                    simp only [h1, h2, if_true, List.cons_append, List.nil_append, stdout,
                      Sprintln_contents]
                    rfl
                  · refine Or.inr (Or.inr (Or.inr (Or.inl ?_)))
                    simp only [h1, h2, if_true, if_false, List.cons_append, List.nil_append,
                      List.append_nil, stdout, Bool.false_eq_true]
                    rfl
                  · refine Or.inr (Or.inr (Or.inr (Or.inr (Or.inl
                      ⟨Count c g.flagFind, ?_⟩))))
                    simp only [h1, h2, if_true, if_false, List.cons_append, List.nil_append,
                      List.append_nil, stdout, Sprintln_contents, Bool.false_eq_true]
                  · left
                    simp only [h1, h2, if_false, List.cons_append, List.nil_append,
                      List.append_nil, stdout, Bool.false_eq_true]
  refine ⟨key, ?_⟩
  rcases key with h | h | h | h | ⟨n, h⟩ | ⟨n, h⟩ <;> rw [h] <;> simp

/-! ## C14: completeness of the recursive walk -/

theorem visitAll_append (g : Globals) (w : World) (xs ys : List (String × FileInfo)) :
    visitAll g w (xs ++ ys) = visitAll g w xs ++ visitAll g w ys := by
  induction xs with
  | nil => rfl
  | cons f rest ih => simp [visitAll, ih]

theorem globTests_append (xs ys : List Event) :
    globTests (xs ++ ys) = globTests xs ++ globTests ys := by
  induction xs with
  | nil => rfl
  | cons e rest ih => cases e <;> simp [globTests, ih]

/-- One call of `visit` on a non-directory makes exactly one glob test, of its name. -/
theorem globTests_visit_file (g : Globals) (w : World) (path name : String) (size : Int) :
    globTests (visit g w path (some ⟨name, size, false⟩) none).2 = [name] := by
  cases hM : w.Match g.flagExt name with
  | none => simp [visit, hM, globTests]
  | some m =>
    cases m with
    | false => simp [visit, hM, globTests]
    | true =>
      by_cases hs : size > g.MaxSize
      · rw [visit_too_big g w path name size hM hs]; rfl
      · have hle : size ≤ g.MaxSize := not_lt.mp hs
        cases hR : w.ReadFile path with
        | error msg => rw [visit_unreadable g w path name size msg hM hle hR]; rfl
        | ok c =>
          rw [visit_inspected g w path name size c hM hle hR]
          by_cases h1 : (g.flagName && Contains name g.flagFind) = true <;>
            by_cases h2 : Contains c g.flagFind = true <;> simp [h1, h2, globTests]

mutual
/-- With recursion on, `.` not excluded, a matcher that rejects the pattern on
no name and no failure met: the walk of a tree ends with `nil` (or `SkipDir`,
on a directory), and its events are those of `visit` on the inspected files. -/
theorem walk_complete (g : Globals) (w : World) (hrec : g.flagRecursive = true)
    (hdot : "." ∉ g.SkipFolders) (hpat : ∀ name, w.Match g.flagExt name ≠ none) :
    ∀ (t : Tree) (path : String), meetsFailure g t = false →
    ((walk g w path t).1 = .returned none
      ∨ (t.IsDir = true ∧ (walk g w path t).1 = .returned (some .SkipDir)))
    ∧ (walk g w path t).2 = visitAll g w (inspectedFiles w g.SkipFolders path t)
  | .entry name size, path, _ => by
    constructor
    · left
      rcases visit_file_outcome g w path name size with h | ⟨_, h⟩
      · exact h
      · exact absurd h (hpat name)
    · simp [walk, inspectedFiles, visitAll]
  | .lstatErr name msg, path, h => by simp [meetsFailure] at h
  | .dir name size (some msg) kids, path, h => by simp [meetsFailure] at h
  | .dir name size none kids, path, h => by
    by_cases hin : name ∈ g.SkipFolders
    · have hne : name ≠ "." := fun e => hdot (e ▸ hin)
      have hskip : ¬ (name = "." ∨ (inArray name g.SkipFolders = false
          ∧ g.flagRecursive = true)) := by
        simp [hne, (inArray_iff name g.SkipFolders).mpr hin]
      rw [walk_dir_skipped g w path name size kids hskip]
      exact ⟨Or.inr ⟨rfl, rfl⟩, by simp [inspectedFiles, hin, visitAll]⟩
    · have hnot : inArray name g.SkipFolders = false := by
        cases hb : inArray name g.SkipFolders with
        | false => rfl
        | true => exact absurd ((inArray_iff _ _).mp hb) hin
      have hd : name = "." ∨ (inArray name g.SkipFolders = false
          ∧ g.flagRecursive = true) := Or.inr ⟨hnot, hrec⟩
      have hk : meetsFailureList g kids = false := by
        simpa [meetsFailure, (descends_iff g name).mpr hd] using h
      rw [walk_dir_entered g w path name size kids hd]
      have := walkNames_complete g w hrec hdot hpat kids path hk
      rw [this]
      exact ⟨Or.inl rfl, by simp [inspectedFiles, hin]⟩
/-- The same for the loop over a listing, which ends with `nil`. -/
theorem walkNames_complete (g : Globals) (w : World) (hrec : g.flagRecursive = true)
    (hdot : "." ∉ g.SkipFolders) (hpat : ∀ name, w.Match g.flagExt name ≠ none) :
    ∀ (ks : List Tree) (path : String), meetsFailureList g ks = false →
    walkNames g w path ks
      = (.returned none, visitAll g w (inspectedFilesList w g.SkipFolders path ks))
  | [], path, _ => by simp [walkNames_nil, inspectedFilesList, visitAll]
  | t :: rest, path, h => by
    simp only [meetsFailureList, Bool.or_eq_false_iff] at h
    obtain ⟨ho, htr⟩ := walk_complete g w hrec hdot hpat t (w.Join path t.Name) h.1
    have hs : stops t (walk g w (w.Join path t.Name) t).1 = false := by
      rcases ho with ho | ⟨hdir, ho⟩
      · rw [ho, stops_nil]
      · rw [ho]
        cases t with
        | entry name size => simp [Tree.IsDir] at hdir
        | lstatErr name msg => simp [Tree.IsDir] at hdir
        | dir name size readErr kids => simp [stops, Tree.IsDir]
    rw [walkNames_cons_continue g w path t rest hs,
      walkNames_complete g w hrec hdot hpat rest path h.2, htr]
    simp [inspectedFilesList, visitAll_append]
end

theorem globTests_visitAll (g : Globals) (w : World) (fs : List (String × FileInfo))
    (hfile : ∀ f ∈ fs, f.2.IsDir = false) :
    globTests (visitAll g w fs) = fs.map (fun f => f.2.Name) := by
  induction fs with
  | nil => rfl
  | cons f rest ih =>
    obtain ⟨p, name, size, isDir⟩ := f
    have hd : isDir = false := hfile _ (List.mem_cons_self _ _)
    subst hd
    simp only [visitAll, globTests_append, globTests_visit_file, List.map_cons,
      List.singleton_append]
    rw [ih (fun f hf => hfile f (List.mem_cons_of_mem _ hf))]

mutual
theorem inspectedFiles_isFile (w : World) (skip : List String) :
    ∀ (t : Tree) (path : String), ∀ f ∈ inspectedFiles w skip path t, f.2.IsDir = false
  | .entry name size, path, f, hf => by
    simp [inspectedFiles] at hf
    rw [hf]
  | .lstatErr name msg, path, f, hf => by simp [inspectedFiles] at hf
  | .dir name size readErr kids, path, f, hf => by
    by_cases hin : name ∈ skip
    · simp [inspectedFiles, hin] at hf
    · simp only [inspectedFiles, hin, if_false] at hf
      exact inspectedFilesList_isFile w skip kids path f hf
theorem inspectedFilesList_isFile (w : World) (skip : List String) :
    ∀ (ks : List Tree) (path : String), ∀ f ∈ inspectedFilesList w skip path ks,
      f.2.IsDir = false
  | [], path, f, hf => by simp [inspectedFilesList] at hf
  | t :: rest, path, f, hf => by
    simp only [inspectedFilesList, List.mem_append] at hf
    rcases hf with hf | hf
    · exact inspectedFiles_isFile w skip t _ f hf
    · exact inspectedFilesList_isFile w skip rest path f hf
end

/-- C14. With the recursion flag set, `.` not in the exclusion set, a root
directory whose name is not in the exclusion set, a matcher that rejects the
pattern on no name and no failing `Lstat` or listing met by the walk: `Walk`
returns `nil`, and its events are exactly those of one call of `visit` on each
non-directory entry that has no directory with an excluded name on its way
down from the root, in listing order. So each such entry is glob-tested
exactly once, and no other entry is ever handed to `visit`'s file steps. -/
theorem C14_recursive_walk_complete (g : Globals) (w : World) (root rname : String)
    (rsize : Int) (kids : List Tree)
    (hrec : g.flagRecursive = true) (hdot : "." ∉ g.SkipFolders)
    (hroot : rname ∉ g.SkipFolders) (hpat : ∀ name, w.Match g.flagExt name ≠ none)
    (hfs : meetsFailure g (.dir rname rsize none kids) = false) :
    Walk g w root (.dir rname rsize none kids)
      = (.returned none, visitAll g w (inspectedFilesList w g.SkipFolders root kids))
    ∧ globTests (Walk g w root (.dir rname rsize none kids)).2
        = (inspectedFilesList w g.SkipFolders root kids).map (fun f => f.2.Name)
    ∧ (∀ f ∈ inspectedFilesList w g.SkipFolders root kids,
        Event.Match g.flagExt f.2.Name ∈ (Walk g w root (.dir rname rsize none kids)).2) := by
  have hnot : inArray rname g.SkipFolders = false := by
    cases hb : inArray rname g.SkipFolders with
    | false => rfl
    | true => exact absurd ((inArray_iff _ _).mp hb) hroot
  have hd : rname = "." ∨ (inArray rname g.SkipFolders = false ∧ g.flagRecursive = true) :=
    Or.inr ⟨hnot, hrec⟩
  have hk : meetsFailureList g kids = false := by
    simpa [meetsFailure, (descends_iff g rname).mpr hd] using hfs
  have hW : Walk g w root (.dir rname rsize none kids)
      = (.returned none, visitAll g w (inspectedFilesList w g.SkipFolders root kids)) := by
    unfold Walk
    rw [walk_dir_entered g w root rname rsize kids hd,
      walkNames_complete g w hrec hdot hpat kids root hk]
    simp
  have hfile := inspectedFilesList_isFile w g.SkipFolders kids root
  refine ⟨hW, ?_, ?_⟩
  · rw [hW]
    exact globTests_visitAll g w _ hfile
  · intro f hf
    rw [hW]
    obtain ⟨l1, l2, hl⟩ := List.append_of_mem hf
    obtain ⟨p, name, size, isDir⟩ := f
    have hdir : isDir = false := hfile _ hf
    subst hdir
    rw [hl, visitAll_append]
    simp only [visitAll]
    exact List.mem_append_right _
      (List.mem_append_left _ (visit_file_match_event g w p name size))

/-- C14 at a concrete input: root `.` with `a.go`, `vendor/c.go` and
`sub/d.go`, recursion on: `a.go` and `d.go` are glob-tested once each, `c.go` never. -/
theorem C14_recursive_walk_complete_witness :
    (redGlobals true).flagRecursive = true
    ∧ "." ∉ (redGlobals true).SkipFolders
    ∧ "." ∉ (redGlobals true).SkipFolders
    ∧ (∀ name, redWorld.Match (redGlobals true).flagExt name ≠ none)
    ∧ meetsFailure (redGlobals true) (.dir "." 0 none
        [.entry "a.go" 6, .dir "vendor" 0 none [.entry "c.go" 6],
         .dir "sub" 0 none [.entry "d.go" 6]]) = false
    ∧ globTests (Walk (redGlobals true) redWorld "." (.dir "." 0 none
        [.entry "a.go" 6, .dir "vendor" 0 none [.entry "c.go" 6],
         .dir "sub" 0 none [.entry "d.go" 6]])).2
        = (inspectedFilesList redWorld (redGlobals true).SkipFolders "."
            [.entry "a.go" 6, .dir "vendor" 0 none [.entry "c.go" 6],
             .dir "sub" 0 none [.entry "d.go" 6]]).map (fun f => f.2.Name)
    ∧ (inspectedFilesList redWorld (redGlobals true).SkipFolders "."
            [.entry "a.go" 6, .dir "vendor" 0 none [.entry "c.go" 6],
             .dir "sub" 0 none [.entry "d.go" 6]]).map (fun f => f.2.Name)
        = ["a.go", "d.go"] :=
  ⟨rfl, by decide, by decide, fun _ => by simp [redWorld], by decide,
    (C14_recursive_walk_complete (redGlobals true) redWorld "." "." 0
      [.entry "a.go" 6, .dir "vendor" 0 none [.entry "c.go" 6],
       .dir "sub" 0 none [.entry "d.go" 6]]
      rfl (by decide) (by decide) (fun _ => by simp [redWorld]) (by decide)).2.1,
    by decide⟩

/-! ## C11: `CopyFile` onto an existing destination -/

/-- C11. When `Exists(dst)` is true, `CopyFile` returns the non-nil error
`File, <dst>, already exists.`; the only filesystem call it has made is the
`Stat` of `dst`, so `src` is not read and `dst` is not written, and the
filesystem is left as it was, whatever `WriteFile` would do. -/
theorem C11_CopyFile_existing_destination
    (writeFile : Disk → String → String → Nat → Option String × Disk)
    (d : Disk) (src dst : String) (h : Common.Exists d dst = true) :
    Common.CopyFile writeFile d src dst
      = (some ("File, " ++ dst ++ ", already exists."), d, [.Stat dst])
    ∧ (Common.CopyFile writeFile d src dst).1 ≠ none
    ∧ (Common.CopyFile writeFile d src dst).2.1 = d
    ∧ (∀ p, DiskEvent.ReadFile p ∉ (Common.CopyFile writeFile d src dst).2.2)
    ∧ (∀ p data perm,
        DiskEvent.WriteFile p data perm ∉ (Common.CopyFile writeFile d src dst).2.2) := by
  have hc : Common.CopyFile writeFile d src dst
      = (some ("File, " ++ dst ++ ", already exists."), d, [.Stat dst]) := by
    simp [Common.CopyFile, h]
  rw [hc]
  exact ⟨rfl, by simp, rfl, by simp, by simp⟩

/-- C11 at a concrete input: copying `a.txt` onto the existing `b.txt` fails
and `b.txt` still reads `beta`. -/
theorem C11_CopyFile_existing_destination_witness :
    Common.Exists twoFileDisk "b.txt" = true
    ∧ Common.CopyFile plainWrite twoFileDisk "a.txt" "b.txt"
        = (some ("File, " ++ "b.txt" ++ ", already exists."), twoFileDisk, [.Stat "b.txt"])
    ∧ (Common.CopyFile plainWrite twoFileDisk "a.txt" "b.txt").2.1.ReadFile "b.txt"
        = .ok "beta" :=
  ⟨by decide,
    (C11_CopyFile_existing_destination plainWrite twoFileDisk "a.txt" "b.txt" (by decide)).1,
    by
      rw [(C11_CopyFile_existing_destination plainWrite twoFileDisk "a.txt" "b.txt"
        (by decide)).2.2.1]
      rfl⟩

/-- When the destination does not exist the copy goes through: `a.txt` copied
to `c.txt` is read, written with mode 0644, and `c.txt` then reads `alpha`. -/
theorem CopyFile_fresh_destination :
    Common.Exists twoFileDisk "c.txt" = false
    ∧ (Common.CopyFile plainWrite twoFileDisk "a.txt" "c.txt").1 = none
    ∧ (Common.CopyFile plainWrite twoFileDisk "a.txt" "c.txt").2.2
        = [.Stat "c.txt", .ReadFile "a.txt", .WriteFile "c.txt" "alpha" 420]
    ∧ (Common.CopyFile plainWrite twoFileDisk "a.txt" "c.txt").2.1.ReadFile "c.txt"
        = .ok "alpha" := by
  refine ⟨by decide, ?_, ?_, ?_⟩ <;> rfl

end Find
